import Mathlib

/-!
Shallow embedding of `src/openhtf/bin/units_from_xls.py` (a Python 2 script).
Strings are modelled as `List Char`; Python `str.replace` is modelled for the
pattern lengths that occur in the program (one and two characters).
-/

namespace UnitsFromXls


/-- Python `s.replace(p, v)` for a one-character pattern `p`:
every occurrence of the character `p` is replaced by `v`. -/
def replace1 (p : Char) (v : List Char) : List Char → List Char
  | [] => []
  | c :: t => if c = p then v ++ replace1 p v t else c :: replace1 p v t

/-- Python `s.replace(ab, w)` for a two-character pattern: left-to-right,
non-overlapping replacement of adjacent `a`, `b` by `w`. -/
def replace2 (a b : Char) (w : List Char) : List Char → List Char
  | [] => []
  | [c] => [c]
  | c :: d :: t =>
      if c = a ∧ d = b then w ++ replace2 a b w t
      else c :: replace2 a b w (d :: t)

/-- Python `s.replace(pat, v)` restricted to the pattern lengths appearing in
`UNIT_KEY_REPLACEMENTS` (every key there has one or two characters). -/
def pyReplace (pat v : List Char) (s : List Char) : List Char :=
  match pat with
  | [p] => replace1 p v s
  | [a, b] => replace2 a b v s
  | _ => s

/-- Python `unicode.upper` on the ASCII range (the only range exercised by the
claims; the program's data outside ASCII is consumed by the replacement table
before `upper` is reached). -/
def pyUpperChar (c : Char) : Char :=
  if 'a' ≤ c ∧ c ≤ 'z' then Char.ofNat (c.toNat - 32) else c

def pyUpper (s : List Char) : List Char := s.map pyUpperChar

/-- Python `re.sub(r'_+', '_', s)`: collapse every run of consecutive
underscores into a single underscore. -/
def collapseUnderscores : List Char → List Char
  | [] => []
  | [c] => [c]
  | c :: d :: t =>
      if c = '_' ∧ d = '_' then collapseUnderscores (d :: t)
      else c :: collapseUnderscores (d :: t)

/-!
The source stores the replacement table in a Python 2 `dict` literal and walks
it with `UNIT_KEY_REPLACEMENTS.iteritems()`.  A Python 2 `dict` iterates in
hash-table slot order, not in the order the literal lists its keys.  For this
literal the order is fully determined (CPython 2.7, hash randomization off,
identical on 32- and 64-bit builds): the 19 keys live in a table of 32 slots,
each key sits in slot `hash(key) mod 32` except for two collisions
(`u'\xa0'` collides with `' '` in slot 1 and lands in slot 7; `'15'` collides
with `'%'` in slot 4 and lands in slot 16).  Slot order of the occupied slots:

  slot  1: ' '      slot  4: '%'      slot  6: `'`      slot  7: u'\xa0'
  slot  8: ')'      slot  9: '('      slot 11: '30'     slot 12: '-'
  slot 13: ','      slot 14: '/'      slot 15: '.'      slot 16: '15'
  slot 17: u'\xb0'  slot 18: u'–' slot 25: '8'     slot 26: '['
  slot 27: u'\xba'  slot 28: ']'      slot 29: '\\'

`UNIT_KEY_REPLACEMENTS` below records the dict's (pattern, replacement) pairs
in that iteration order, i.e. in the order the program actually applies them.
Note that '[' and ']' are applied after '15' and '30'.
-/
def UNIT_KEY_REPLACEMENTS : List (List Char × List Char) :=
  [([' '], ['_']),
   (['%'], ['P', 'E', 'R', 'C', 'E', 'N', 'T']),
   (['\''], []),
   (['\u00A0'], ['_']),
   ([')'], []),
   (['('], []),
   (['3', '0'], ['T', 'H', 'I', 'R', 'T', 'Y']),
   (['-'], ['_']),
   ([','], ['_']),
   (['/'], ['_', 'P', 'E', 'R', '_']),
   (['.'], ['_']),
   (['1', '5'], ['F', 'I', 'F', 'T', 'E', 'E', 'N']),
   (['°'], ['D', 'E', 'G', '_']),
   (['–'], ['_']),
   (['8'], ['E', 'I', 'G', 'H', 'T']),
   (['['], []),
   (['º'], ['D', 'E', 'G', '_']),
   ([']'], []),
   (['\\'], ['_'])]

/-- Replacement pairs in the order the source code lists them in the dict
literal (the order the spec calls "the fixed listed order"). -/
def unitKeyReplacementsListed : List (List Char × List Char) :=
  [([' '], ['_']),
   ([','], ['_']),
   (['.'], ['_']),
   (['-'], ['_']),
   (['/'], ['_', 'P', 'E', 'R', '_']),
   (['%'], ['P', 'E', 'R', 'C', 'E', 'N', 'T']),
   (['['], []),
   ([']'], []),
   (['('], []),
   ([')'], []),
   (['\''], []),
   (['8'], ['E', 'I', 'G', 'H', 'T']),
   (['1', '5'], ['F', 'I', 'F', 'T', 'E', 'E', 'N']),
   (['3', '0'], ['T', 'H', 'I', 'R', 'T', 'Y']),
   (['\\'], ['_']),
   (['\u00A0'], ['_']),
   (['°'], ['D', 'E', 'G', '_']),
   (['º'], ['D', 'E', 'G', '_']),
   (['–'], ['_'])]

/-- Apply a list of (pattern, replacement) pairs in sequence, as the loop
`for old, new in ...: result = result.replace(old, new)` does. -/
def applyReplacements (table : List (List Char × List Char)) (s : List Char) :
    List Char :=
  table.foldl (fun r pr => pyReplace pr.1 pr.2 r) s

/-- The program's `unit_key_from_name`: sequentially apply the replacement
table (in the dict's iteration order, which is the order the running program
uses), then uppercase, then collapse runs of underscores. -/
def unit_key_from_name (name : List Char) : List Char :=
  collapseUnderscores (pyUpper (applyReplacements UNIT_KEY_REPLACEMENTS name))

/-- Reference definition written after the spec's words: the same sequential
pass but in the order the dict literal lists the keys, then uppercase, then
collapse runs of underscores. -/
def unit_key_from_name_spec (name : List Char) : List Char :=
  collapseUnderscores (pyUpper (applyReplacements unitKeyReplacementsListed name))

/-!
The worksheet reader `unit_defs_from_sheet`.  An `xlrd` cell is modelled by
its `value`; a sheet by its list of rows (the first row is the header).  The
two kinds of generated source lines,
`"%s = UnitDescriptor('%s', '%s', '''%s''')\n" % (key, name, code, suffix)`
and `"ALL_UNITS.append(%s)\n" % key`, are modelled structurally by `Line`.
-/
structure Cell where
  value : List Char
deriving DecidableEq

structure Sheet where
  rows : List (List Cell)
deriving DecidableEq

def COLUMN_NAMES : List (List Char) :=
  ["Name".toList, "Common\nCode".toList, "Symbol".toList]

def SHEET_NAME : List Char := "Annex II & Annex III".toList

/-- Python exceptions that can escape the generator's row loop (its
`try/except` only catches `xlrd.XLRDError`). -/
inductive PyErr where
  | keyError (label : List Char)
  | indexError
deriving DecidableEq

/-- One yielded line of generated Python source. -/
inductive Line where
  | decl (key name code sfx : List Char)
  | append (key : List Char)
deriving DecidableEq

/-- Lookup in an association list, first binding wins (Python dict lookup for
the insertion discipline `dictInsert` below). -/
def alookup {β : Type} (k : List Char) : List (List Char × β) → Option β
  | [] => none
  | (k', v) :: t => if k' = k then some v else alookup k t

/-- Python dict assignment `d[k] = v`: overwrite the existing binding in place
or append a new one. -/
def dictInsert {β : Type} : List (List Char × β) → List Char → β →
    List (List Char × β)
  | [], k, v => [(k, v)]
  | (k', v') :: t, k, v =>
      if k' = k then (k, v) :: t else (k', v') :: dictInsert t k v

/-- The header scan: `for idx, cell in enumerate(rows.next()): if cell.value
in column_names: col_indices[cell.value] = idx`. -/
def colIndices (header : List Cell) (columnNames : List (List Char)) :
    List (List Char × Nat) :=
  header.enum.foldl
    (fun d ic =>
      if ic.2.value ∈ columnNames then dictInsert d ic.2.value ic.1 else d)
    []

/-- Python `name.replace("'", r"\'")` applied to cell text before key
derivation and emission. -/
def escapeApos (s : List Char) : List Char := replace1 '\'' ['\\', '\''] s

/-- The cell access `row[col_indices[column_names[i]]].value`: a missing
column label raises `KeyError(label)`, an out-of-range index raises
`IndexError`. -/
def getCol (ci : List (List Char × Nat)) (cn : List (List Char)) (i : Nat)
    (row : List Cell) : Except PyErr (List Char) :=
  match cn.get? i with
  | none => .error .indexError
  | some label =>
    match alookup label ci with
    | none => .error (.keyError label)
    | some idx =>
      match row.get? idx with
      | none => .error .indexError
      | some cell => .ok cell.value

/-- Extraction of one row's (name, code, suffix) triple, in the order the
source performs the three accesses; the quote escaping is applied to name and
suffix as in the source. -/
def extractRow (ci : List (List Char × Nat)) (cn : List (List Char))
    (row : List Cell) : Except PyErr (List Char × List Char × List Char) :=
  match getCol ci cn 0 row with
  | .error e => .error e
  | .ok rawName =>
    match getCol ci cn 1 row with
    | .error e => .error e
    | .ok code =>
      match getCol ci cn 2 row with
      | .error e => .error e
      | .ok rawSfx => .ok (escapeApos rawName, code, escapeApos rawSfx)

/-- The data-row loop of `unit_defs_from_sheet`: first component is the list
of yielded lines, second the uncaught exception that aborted the loop, if
any.  A duplicate derived key is skipped silently (`continue`). -/
def processRows (ci : List (List Char × Nat)) (cn : List (List Char)) :
    List (List Char) → List (List Cell) → List Line × Option PyErr
  | _, [] => ([], none)
  | seen, row :: rest =>
    match extractRow ci cn row with
    | .error e => ([], some e)
    | .ok (name, code, sfx) =>
      let key := unit_key_from_name name
      if key ∈ seen then processRows ci cn seen rest
      else
        let r := processRows ci cn (key :: seen) rest
        (Line.decl key name code sfx :: Line.append key :: r.1, r.2)

/-- The generator `unit_defs_from_sheet`.  An empty sheet makes `rows.next()`
raise `StopIteration`, which inside a Python 2 generator silently ends the
generator, so no lines and no error. -/
def unit_defs_from_sheet (sheet : Sheet) (columnNames : List (List Char)) :
    List Line × Option PyErr :=
  match sheet.rows with
  | [] => ([], none)
  | header :: dataRows =>
      processRows (colIndices header columnNames) columnNames [] dataRows

/-- Reference operation: extract every row's triple, failing on the first
erroring row (used to state "all rows are well formed"). -/
def extractAll (ci : List (List Char × Nat)) (cn : List (List Char)) :
    List (List Cell) → Except PyErr (List (List Char × List Char × List Char))
  | [] => .ok []
  | row :: rest =>
    match extractRow ci cn row with
    | .error e => .error e
    | .ok t =>
      match extractAll ci cn rest with
      | .error e => .error e
      | .ok ts => .ok (t :: ts)

/-- Reference definition following the spec's words: keep each triple whose
derived identifier has not been seen before (first occurrence wins). -/
def dedupFirstBy :
    List (List Char) → List (List Char × List Char × List Char) →
      List (List Char × List Char × List Char)
  | _, [] => []
  | seen, t :: rest =>
    if unit_key_from_name t.1 ∈ seen then dedupFirstBy seen rest
    else t :: dedupFirstBy (unit_key_from_name t.1 :: seen) rest

/-- Reference emission: one declaration line plus one registration line per
kept triple. -/
def emitLines : List (List Char × List Char × List Char) → List Line
  | [] => []
  | (n, c, sfx) :: rest =>
      Line.decl (unit_key_from_name n) n c sfx
        :: Line.append (unit_key_from_name n) :: emitLines rest

/-- Does this line declare identifier `k`? -/
def isDeclFor (k : List Char) : Line → Bool
  | .decl k' _ _ _ => k' = k
  | .append _ => false

/-- Keys of the declaration lines, in order. -/
def declKeys : List Line → List (List Char)
  | [] => []
  | .decl k _ _ _ :: t => k :: declKeys t
  | .append _ :: t => declKeys t

/-- The declaration/registration statements hardcoded in the PRE template
(`NO_DIMENSION = UnitDescriptor('No dimension', 'NDL', None)`, its
registration, and the same pair for `NONE`; the Python literal `None` in the
code/suffix slots is modelled as the empty string). -/
def sentinelLines : List Line :=
  [Line.decl ("NO_DIMENSION".toList) ("No dimension".toList) ("NDL".toList) [],
   Line.append ("NO_DIMENSION".toList),
   Line.decl ("NONE".toList) ("None".toList) [] [],
   Line.append ("NONE".toList)]

/-- All declaration/registration statements of the generated file, in textual
order: the PRE template's two sentinel pairs, then the generated lines.  The
POST template contains no declaration or registration statements. -/
def fullStatements (sheet : Sheet) (cn : List (List Char)) : List Line :=
  sentinelLines ++ (unit_defs_from_sheet sheet cn).1

/-!
The `main` function.  The filesystem is modelled as an association list from
paths to file contents; the text the tool writes is modelled structurally
(`OutChunk`): the PRE template, one chunk per generated line (the utf-8
encoding with substitution of unencodable characters is absorbed into the
`line` chunk), and the POST template.
-/
inductive OutChunk where
  | preamble
  | line (l : Line)
  | postamble
deriving DecidableEq

inductive FileContent where
  | workbook (sheets : List (List Char × Sheet))
  | text (chunks : List OutChunk)
deriving DecidableEq

structure FS where
  files : List (String × FileContent)
deriving DecidableEq

def fsLookup : List (String × FileContent) → String → Option FileContent
  | [], _ => none
  | (q, c) :: t, p => if q = p then some c else fsLookup t p

def fsWrite : List (String × FileContent) → String → FileContent →
    List (String × FileContent)
  | [], p, c => [(p, c)]
  | (q, c') :: t, p, c =>
      if q = p then (p, c) :: t else (q, c') :: fsWrite t p c

def fsRemove : List (String × FileContent) → String →
    List (String × FileContent)
  | [], _ => []
  | (q, c) :: t, p => if q = p then fsRemove t p else (q, c) :: fsRemove t p

def FS.lookup (fs : FS) (p : String) : Option FileContent := fsLookup fs.files p

def FS.pathExists (fs : FS) (p : String) : Bool := (fs.lookup p).isSome

def FS.write (fs : FS) (p : String) (c : FileContent) : FS := ⟨fsWrite fs.files p c⟩

def FS.remove (fs : FS) (p : String) : FS := ⟨fsRemove fs.files p⟩

/-- Errors that can abort a run of `main`. -/
inductive RunErr where
  | xlrdError
  | pyErr (e : PyErr)
  | osError
deriving DecidableEq

/-- How a run of `main` ends.  `exited b code` models `sys.exit()` after the
existence check (`b` records that the message and `parser.print_help()` were
printed); a bare `sys.exit()` raises `SystemExit(None)` and the interpreter
exits with status 0. -/
inductive Outcome where
  | exited (printedHelp : Bool) (code : Nat)
  | raised (e : RunErr)
  | finished
deriving DecidableEq

/-- The expression `xlrd.open_workbook(args.xlsfile).sheet_by_name(SHEET_NAME)`:
fails with `XLRDError` when the file is not a readable workbook or has no
sheet of that name. -/
def openWorkbookSheet (fs : FS) (path : String) : Except RunErr Sheet :=
  match fs.lookup path with
  | some (.workbook sheets) =>
    match alookup SHEET_NAME sheets with
    | some sheet => .ok sheet
    | none => .error .xlrdError
  | _ => .error .xlrdError

/-- The body of `main` after argument parsing.  `tmpPath` is the fresh path
`mkstemp` returns.  The steps mirror the source line by line: existence check
with bare `sys.exit()`; workbook/sheet opening; `mkstemp` (creates an empty
file); `write(PRE)` followed by the list comprehension that drains the
generator (an uncaught generator exception therefore leaves the temp file
holding only PRE and propagates); `writelines`/`write(POST)`;
`os.remove(args.outfile)` (raises `OSError` when the path does not exist);
`shutil.move(tmp_path, args.outfile)`. -/
def pyMain (xlsfile outfile tmpPath : String) (fs : FS) : Outcome × FS :=
  if fs.pathExists xlsfile = false then (.exited true 0, fs)
  else
    match openWorkbookSheet fs xlsfile with
    | .error e => (.raised e, fs)
    | .ok sheet =>
      let gen := unit_defs_from_sheet sheet COLUMN_NAMES
      let fs1 := fs.write tmpPath (.text [])
      match gen.2 with
      | some e =>
          (.raised (.pyErr e), fs1.write tmpPath (.text [OutChunk.preamble]))
      | none =>
        let content : FileContent :=
          .text (OutChunk.preamble :: (gen.1.map OutChunk.line
            ++ [OutChunk.postamble]))
        let fs2 := fs1.write tmpPath content
        if fs2.pathExists outfile = false then (.raised .osError, fs2)
        else
          let fs3 := fs2.remove outfile
          (.finished, (fs3.remove tmpPath).write outfile content)

/-- Does the string contain two adjacent underscores? -/
def hasDoubleUnderscore : List Char → Bool
  | c :: d :: t => (c == '_' && d == '_') || hasDoubleUnderscore (d :: t)
  | _ => false

/-!
Claim C4.  Arbitrary human text is not always sanitized into a valid Python
identifier: characters outside the replacement table survive unchanged, the
empty name stays empty, and digit sequences other than 8/15/30 survive, so
the output can be empty, contain invalid characters, or begin with a digit.
On the alphabet the table actually handles (ASCII letters, underscore and the
thirteen replaced ASCII characters) the guarantee does hold.
-/
/-- Characters of the input alphabet handled by the sanitizer: ASCII letters,
the underscore, and the thirteen ASCII characters the table replaces. -/
def allowedInputChar (c : Char) : Prop :=
  (65 ≤ c.toNat ∧ c.toNat ≤ 90) ∨ (97 ≤ c.toNat ∧ c.toNat ≤ 122) ∨ c = '_' ∨
    c ∈ ([' ', ',', '.', '-', '/', '%', '[', ']', '(', ')', '\'', '8',
          '\\'] : List Char)

instance (c : Char) : Decidable (allowedInputChar c) := by
  unfold allowedInputChar
  infer_instance

/-!
Claim C5.  A single space, comma or hyphen between letter-only halves becomes
exactly one underscore.
-/
/-- ASCII letter ranges. -/
def asciiLetter (c : Char) : Prop :=
  (65 ≤ c.toNat ∧ c.toNat ≤ 90) ∨ (97 ≤ c.toNat ∧ c.toNat ≤ 122)

instance (c : Char) : Decidable (asciiLetter c) := by
  unfold asciiLetter
  infer_instance

/-!
Claims C6 and C7: first-wins deduplication and the declaration/registration
round trip.
-/
instance {E A : Type} [DecidableEq E] [DecidableEq A] :
    DecidableEq (Except E A)
  | Except.error e1, Except.error e2 =>
      if h : e1 = e2 then .isTrue (by rw [h])
      else .isFalse (fun hh => h (Except.error.inj hh))
  | Except.error e1, Except.ok a2 =>
      .isFalse (fun hh => Except.noConfusion hh)
  | Except.ok a1, Except.error e2 =>
      .isFalse (fun hh => Except.noConfusion hh)
  | Except.ok a1, Except.ok a2 =>
      if h : a1 = a2 then .isTrue (by rw [h])
      else .isFalse (fun hh => h (Except.ok.inj hh))

/-!
Claim C2.  On a missing input file the program prints the message and the
help text and calls bare `sys.exit()`, which terminates the interpreter with
exit status 0 — a normal, not an abnormal, status.
-/
def xlsPath : String := "input.xls"

def outPath : String := "units.py"

def tmpPath0 : String := "tmp0001"

def fs0 : FS := ⟨[]⟩

def fs1 : FS := ⟨[(xlsPath, FileContent.workbook [(SHEET_NAME, ⟨[]⟩)])]⟩

example : replace1 'a' ['b'] ('a' :: 'x' :: 'a' :: []) = ('b' :: 'x' :: 'b' :: []) := by decide

example : replace2 'a' 'a' ['b'] ('a' :: 'a' :: 'a' :: []) = ('b' :: 'a' :: []) := by decide

example : collapseUnderscores ("a__b___c".toList) = "a_b_c".toList := by decide

example : pyUpper ("aZ_9".toList) = "AZ_9".toList := by decide

example : unit_key_from_name ("1[5".toList) = "15".toList := by decide

example : unit_key_from_name_spec ("1[5".toList) = "FIFTEEN".toList := by decide

example : unit_key_from_name ("degree Celsius [°C]".toList)
    = "DEGREE_CELSIUS_DEG_C".toList := by decide

example : unit_key_from_name_spec ("degree Celsius [°C]".toList)
    = "DEGREE_CELSIUS_DEG_C".toList := by decide

example : unit_key_from_name ("m/s".toList) = "M_PER_S".toList := by decide

example : unit_key_from_name ("8x8".toList) = "EIGHTXEIGHT".toList := by decide

example :
    (unit_defs_from_sheet
      ⟨[[⟨"Name".toList⟩, ⟨"Common\nCode".toList⟩, ⟨"Symbol".toList⟩],
        [⟨"kilogram".toList⟩, ⟨"KGM".toList⟩, ⟨"kg".toList⟩],
        [⟨"metre".toList⟩, ⟨"MTR".toList⟩, ⟨"m".toList⟩],
        [⟨"metre".toList⟩, ⟨"MTR".toList⟩, ⟨"m".toList⟩]]⟩ COLUMN_NAMES)
    = ([Line.decl ("KILOGRAM".toList) ("kilogram".toList) ("KGM".toList)
          ("kg".toList),
        Line.append ("KILOGRAM".toList),
        Line.decl ("METRE".toList) ("metre".toList) ("MTR".toList)
          ("m".toList),
        Line.append ("METRE".toList)], none) := by decide

/-! Basic lemmas about `replace1`. -/
theorem replace1_append (p : Char) (v u z : List Char) :
    replace1 p v (u ++ z) = replace1 p v u ++ replace1 p v z := by
  induction u with
  | nil => rfl
  | cons c t ih =>
      by_cases h : c = p <;> simp [replace1, h, ih]

theorem replace1_eq_self (p : Char) (v : List Char) {u : List Char}
    (h : p ∉ u) : replace1 p v u = u := by
  induction u with
  | nil => rfl
  | cons c t ih =>
      simp only [List.mem_cons, not_or] at h
      rw [replace1, if_neg (fun hh : c = p => h.1 hh.symm), ih h.2]

theorem mem_replace1 {c p : Char} {v s : List Char}
    (h : c ∈ replace1 p v s) : c ∈ s ∨ c ∈ v := by
  induction s with
  | nil => simp [replace1] at h
  | cons d t ih =>
      by_cases hd : d = p <;> simp only [replace1, if_pos, if_neg, hd] at h
      · simp only [List.mem_append] at h
        rcases h with h1 | h1
        · exact Or.inr h1
        · rcases ih h1 with h2 | h2
          · exact Or.inl (List.mem_cons_of_mem _ h2)
          · exact Or.inr h2
      · rcases List.mem_cons.1 h with h1 | h1
        · exact Or.inl (h1 ▸ List.mem_cons_self _ _)
        · rcases ih h1 with h2 | h2
          · exact Or.inl (List.mem_cons_of_mem _ h2)
          · exact Or.inr h2

theorem not_mem_replace1 {c p : Char} {v s : List Char}
    (hs : c ∉ s) (hv : c ∉ v) : c ∉ replace1 p v s :=
  fun h => (mem_replace1 h).elim hs hv

theorem mem_replace1_of_ne {c p : Char} {v s : List Char}
    (hc : c ∈ s) (hne : c ≠ p) : c ∈ replace1 p v s := by
  induction s with
  | nil => simp at hc
  | cons d t ih =>
      rcases List.mem_cons.1 hc with h1 | h1
      · subst h1
        simp [replace1, hne]
      · by_cases hd : d = p <;> simp [replace1, hd, ih h1]

theorem not_mem_replace1_self {p : Char} {v s : List Char}
    (hv : p ∉ v) : p ∉ replace1 p v s := by
  induction s with
  | nil => simp [replace1]
  | cons d t ih =>
      by_cases hd : d = p
      · rw [replace1, if_pos hd]
        simp only [List.mem_append, not_or]
        exact ⟨hv, ih⟩
      · rw [replace1, if_neg hd]
        simp only [List.mem_cons, not_or]
        exact ⟨fun hh => hd hh.symm, ih⟩

theorem replace1_comm (p q : Char) (v w : List Char)
    (hpq : p ≠ q) (hpw : p ∉ w) (hqv : q ∉ v) (s : List Char) :
    replace1 p v (replace1 q w s) = replace1 q w (replace1 p v s) := by
  induction s with
  | nil => rfl
  | cons c t ih =>
      by_cases hq : c = q
      · have hcp : ¬ c = p := fun hh => hpq (hh.symm.trans hq)
        have h1 : replace1 q w (c :: t) = w ++ replace1 q w t := by
          rw [replace1, if_pos hq]
        have h2 : replace1 p v (c :: t) = c :: replace1 p v t := by
          rw [replace1, if_neg hcp]
        have h3 : replace1 q w (c :: replace1 p v t)
            = w ++ replace1 q w (replace1 p v t) := by
          rw [replace1, if_pos hq]
        rw [h1, replace1_append, replace1_eq_self _ _ hpw, ih, h2, h3]
      · by_cases hp : c = p
        · have h1 : replace1 q w (c :: t) = c :: replace1 q w t := by
            rw [replace1, if_neg hq]
          have h2 : replace1 p v (c :: t) = v ++ replace1 p v t := by
            rw [replace1, if_pos hp]
          have h3 : replace1 p v (c :: replace1 q w t)
              = v ++ replace1 p v (replace1 q w t) := by
            rw [replace1, if_pos hp]
          rw [h1, h3, ih, h2, replace1_append, replace1_eq_self _ _ hqv]
        · have h1 : replace1 q w (c :: t) = c :: replace1 q w t := by
            rw [replace1, if_neg hq]
          have h2 : replace1 p v (c :: t) = c :: replace1 p v t := by
            rw [replace1, if_neg hp]
          have h3 : replace1 p v (c :: replace1 q w t)
              = c :: replace1 p v (replace1 q w t) := by
            rw [replace1, if_neg hp]
          have h4 : replace1 q w (c :: replace1 p v t)
              = c :: replace1 q w (replace1 p v t) := by
            rw [replace1, if_neg hq]
          rw [h1, h3, ih, h2, h4]

/-! Basic lemmas about `replace2`. -/
theorem replace2_cons_of_ne (a b : Char) (w : List Char) (x : Char)
    {z : List Char} (h : x ≠ a ∨ z.head? ≠ some b) :
    replace2 a b w (x :: z) = x :: replace2 a b w z := by
  cases z with
  | nil => rfl
  | cons u t =>
      have hm : ¬ (x = a ∧ u = b) := by
        rcases h with h1 | h1
        · exact fun hh => h1 hh.1
        · exact fun hh => h1 (by simp [hh.2])
      rw [replace2, if_neg hm]

theorem replace2_eq_self (a b : Char) (w : List Char) {u : List Char}
    (h : a ∉ u) : replace2 a b w u = u := by
  induction u with
  | nil => rfl
  | cons x t ih =>
      simp only [List.mem_cons, not_or] at h
      rw [replace2_cons_of_ne a b w x (Or.inl (fun hh => h.1 hh.symm)),
        ih h.2]

theorem replace2_append_left (a b : Char) (w : List Char) {u : List Char}
    (z : List Char) (h : a ∉ u) :
    replace2 a b w (u ++ z) = u ++ replace2 a b w z := by
  induction u with
  | nil => rfl
  | cons x t ih =>
      simp only [List.mem_cons, not_or] at h
      rw [List.cons_append,
        replace2_cons_of_ne a b w x (Or.inl (fun hh => h.1 hh.symm)),
        ih h.2, List.cons_append]

theorem mem_replace2 {c a b : Char} {w : List Char} :
    ∀ {s : List Char}, c ∈ replace2 a b w s → c ∈ s ∨ c ∈ w
  | [], h => by simp [replace2] at h
  | [d], h => Or.inl (by simpa [replace2] using h)
  | x :: y :: t, h => by
      by_cases hm : x = a ∧ y = b
      · rw [replace2, if_pos hm] at h
        rcases List.mem_append.1 h with h1 | h1
        · exact Or.inr h1
        · rcases mem_replace2 h1 with h2 | h2
          · exact Or.inl (by simp [h2])
          · exact Or.inr h2
      · rw [replace2, if_neg hm] at h
        rcases List.mem_cons.1 h with h1 | h1
        · exact Or.inl (by simp [h1])
        · rcases mem_replace2 h1 with h2 | h2
          · exact Or.inl (List.mem_cons_of_mem _ h2)
          · exact Or.inr h2

theorem not_mem_replace2 {c a b : Char} {w s : List Char}
    (hs : c ∉ s) (hw : c ∉ w) : c ∉ replace2 a b w s :=
  fun h => (mem_replace2 h).elim hs hw

theorem mem_replace2_of_ne {c a b : Char} {w : List Char} :
    ∀ {s : List Char}, c ∈ s → c ≠ a → c ≠ b → c ∈ replace2 a b w s
  | [], hc, _, _ => by simp at hc
  | [d], hc, _, _ => by simpa [replace2] using hc
  | x :: y :: t, hc, hca, hcb => by
      by_cases hm : x = a ∧ y = b
      · rw [replace2, if_pos hm]
        rcases List.mem_cons.1 hc with h1 | h1
        · exact absurd (h1.trans hm.1) hca
        · rcases List.mem_cons.1 h1 with h2 | h2
          · exact absurd (h2.trans hm.2) hcb
          · exact List.mem_append.2 (Or.inr (mem_replace2_of_ne h2 hca hcb))
      · rw [replace2, if_neg hm]
        rcases List.mem_cons.1 hc with h1 | h1
        · exact h1 ▸ List.mem_cons_self _ _
        · exact List.mem_cons_of_mem _ (mem_replace2_of_ne h1 hca hcb)

/-- The first element of `replace2 a b w (y :: t)` is `y` or comes from `w`;
in particular it cannot be a character outside `w` that differs from `y`. -/
theorem head?_replace2_ne {e a b : Char} {w : List Char} (hw : w ≠ [])
    (he : e ∉ w) {y : Char} (hy : y ≠ e) (t : List Char) :
    (replace2 a b w (y :: t)).head? ≠ some e := by
  cases t with
  | nil =>
      simp [replace2, hy]
  | cons u t' =>
      by_cases hm : y = a ∧ u = b
      · rw [replace2, if_pos hm]
        cases w with
        | nil => exact absurd rfl hw
        | cons wc wt =>
            simp only [List.cons_append, List.head?_cons]
            intro hh
            rw [← Option.some.inj hh] at he
            exact he (List.mem_cons_self _ _)
      · rw [replace2, if_neg hm]
        simp [hy]

/-! Commutation lemmas: under suitable non-interference conditions two
replacement passes can be exchanged. -/
theorem head?_replace1_ne {e p : Char} {v : List Char} (hv : v ≠ [])
    (he : e ∉ v) {y : Char} (hy : y ≠ e) (t : List Char) :
    (replace1 p v (y :: t)).head? ≠ some e := by
  by_cases hyp : y = p
  · rw [replace1, if_pos hyp]
    cases v with
    | nil => exact absurd rfl hv
    | cons vc vt =>
        simp only [List.cons_append, List.head?_cons]
        intro hh
        rw [← Option.some.inj hh] at he
        exact he (List.mem_cons_self _ _)
  · rw [replace1, if_neg hyp]
    simp [hy]

theorem replace2_replace1_comm (a b p : Char) (w v : List Char)
    (hpa : p ≠ a) (hpb : p ≠ b) (hv : v ≠ []) (hav : a ∉ v) (hbv : b ∉ v)
    (hpw : p ∉ w) :
    ∀ s, replace2 a b w (replace1 p v s) = replace1 p v (replace2 a b w s)
  | [] => rfl
  | [c] => by
      by_cases hc : c = p
      · have h1 : replace1 p v [c] = v := by
          rw [replace1, if_pos hc, replace1, List.append_nil]
        rw [show replace2 a b w [c] = [c] from rfl, h1,
          replace2_eq_self a b w hav]
      · have h1 : replace1 p v [c] = [c] := by
          rw [replace1, if_neg hc, replace1]
        rw [show replace2 a b w [c] = [c] from rfl, h1]
        rfl
  | x :: y :: t => by
      by_cases hm : x = a ∧ y = b
      · have hxp : ¬ x = p := fun hh => hpa (hh.symm.trans hm.1)
        have hyp : ¬ y = p := fun hh => hpb (hh.symm.trans hm.2)
        have h1 : replace1 p v (x :: y :: t) = x :: y :: replace1 p v t := by
          rw [replace1, if_neg hxp, replace1, if_neg hyp]
        have h2 : replace2 a b w (x :: y :: replace1 p v t)
            = w ++ replace2 a b w (replace1 p v t) := by
          rw [replace2, if_pos hm]
        have h3 : replace2 a b w (x :: y :: t) = w ++ replace2 a b w t := by
          rw [replace2, if_pos hm]
        rw [h1, h2, replace2_replace1_comm a b p w v hpa hpb hv hav hbv hpw t,
          h3, replace1_append, replace1_eq_self _ _ hpw]
      · by_cases hx : x = p
        · have hxa : ¬ x = a := fun hh => hpa (hx.symm.trans hh)
          have h1 : replace1 p v (x :: y :: t) = v ++ replace1 p v (y :: t) := by
            rw [replace1, if_pos hx]
          have h2 : replace2 a b w (x :: y :: t)
              = x :: replace2 a b w (y :: t) :=
            replace2_cons_of_ne a b w x (Or.inl hxa)
          have h3 : replace1 p v (x :: replace2 a b w (y :: t))
              = v ++ replace1 p v (replace2 a b w (y :: t)) := by
            rw [replace1, if_pos hx]
          rw [h1, replace2_append_left a b w _ hav,
            replace2_replace1_comm a b p w v hpa hpb hv hav hbv hpw (y :: t),
            h2, h3]
        · have h1 : replace1 p v (x :: y :: t) = x :: replace1 p v (y :: t) := by
            rw [replace1, if_neg hx]
          have hside : x ≠ a ∨ (replace1 p v (y :: t)).head? ≠ some b := by
            by_cases hxa : x = a
            · exact Or.inr (head?_replace1_ne hv hbv
                (fun hh => hm ⟨hxa, hh⟩) t)
            · exact Or.inl hxa
          have hside2 : x ≠ a ∨ ((y :: t) : List Char).head? ≠ some b := by
            by_cases hxa : x = a
            · refine Or.inr ?_
              simp only [List.head?_cons, ne_eq, Option.some.injEq]
              exact fun hh => hm ⟨hxa, hh⟩
            · exact Or.inl hxa
          have h2 : replace2 a b w (x :: y :: t)
              = x :: replace2 a b w (y :: t) :=
            replace2_cons_of_ne a b w x hside2
          have h3 : replace1 p v (x :: replace2 a b w (y :: t))
              = x :: replace1 p v (replace2 a b w (y :: t)) := by
            rw [replace1, if_neg hx]
          rw [h1, replace2_cons_of_ne a b w x hside,
            replace2_replace1_comm a b p w v hpa hpb hv hav hbv hpw (y :: t),
            h2, h3]

theorem replace2_replace2_comm (a b c d : Char) (w u : List Char)
    (hca : c ≠ a) (hcb : c ≠ b) (hda : d ≠ a) (hdb : d ≠ b)
    (hw : w ≠ []) (hu : u ≠ [])
    (hcw : c ∉ w) (hdw : d ∉ w) (hau : a ∉ u) (hbu : b ∉ u) :
    ∀ s, replace2 a b w (replace2 c d u s) = replace2 c d u (replace2 a b w s)
  | [] => rfl
  | [e] => rfl
  | x :: y :: t => by
      by_cases hm : x = a ∧ y = b
      · have h1 : replace2 c d u (x :: y :: t)
            = x :: y :: replace2 c d u t := by
          rw [replace2_cons_of_ne c d u x
              (Or.inl (fun hh => hca (hh.symm.trans hm.1))),
            replace2_cons_of_ne c d u y
              (Or.inl (fun hh => hcb (hh.symm.trans hm.2)))]
        have h2 : replace2 a b w (x :: y :: replace2 c d u t)
            = w ++ replace2 a b w (replace2 c d u t) := by
          rw [replace2, if_pos hm]
        have h3 : replace2 a b w (x :: y :: t) = w ++ replace2 a b w t := by
          rw [replace2, if_pos hm]
        rw [h1, h2,
          replace2_replace2_comm a b c d w u hca hcb hda hdb hw hu hcw hdw hau hbu t,
          h3, replace2_append_left c d u _ hcw]
      · by_cases hm2 : x = c ∧ y = d
        · have h1 : replace2 a b w (x :: y :: t)
              = x :: y :: replace2 a b w t := by
            rw [replace2_cons_of_ne a b w x
                (Or.inl (fun hh => hca (hm2.1.symm.trans hh))),
              replace2_cons_of_ne a b w y
                (Or.inl (fun hh => hda (hm2.2.symm.trans hh)))]
          have h2 : replace2 c d u (x :: y :: replace2 a b w t)
              = u ++ replace2 c d u (replace2 a b w t) := by
            rw [replace2, if_pos hm2]
          have h3 : replace2 c d u (x :: y :: t) = u ++ replace2 c d u t := by
            rw [replace2, if_pos hm2]
          rw [h3, replace2_append_left a b w _ hau,
            replace2_replace2_comm a b c d w u hca hcb hda hdb hw hu hcw hdw hau hbu t,
            h1, h2]
        · have hside1 : x ≠ c ∨ ((y :: t) : List Char).head? ≠ some d := by
            by_cases hxc : x = c
            · refine Or.inr ?_
              simp only [List.head?_cons, ne_eq, Option.some.injEq]
              exact fun hh => hm2 ⟨hxc, hh⟩
            · exact Or.inl hxc
          have hside2 : x ≠ a ∨ ((y :: t) : List Char).head? ≠ some b := by
            by_cases hxa : x = a
            · refine Or.inr ?_
              simp only [List.head?_cons, ne_eq, Option.some.injEq]
              exact fun hh => hm ⟨hxa, hh⟩
            · exact Or.inl hxa
          have hside3 : x ≠ a ∨ (replace2 c d u (y :: t)).head? ≠ some b := by
            by_cases hxa : x = a
            · exact Or.inr (head?_replace2_ne hu hbu
                (fun hh => hm ⟨hxa, hh⟩) t)
            · exact Or.inl hxa
          have hside4 : x ≠ c ∨ (replace2 a b w (y :: t)).head? ≠ some d := by
            by_cases hxc : x = c
            · exact Or.inr (head?_replace2_ne hw hdw
                (fun hh => hm2 ⟨hxc, hh⟩) t)
            · exact Or.inl hxc
          rw [replace2_cons_of_ne c d u x hside1,
            replace2_cons_of_ne a b w x hside3,
            replace2_replace2_comm a b c d w u hca hcb hda hdb hw hu hcw hdw hau hbu (y :: t),
            replace2_cons_of_ne a b w x hside2,
            replace2_cons_of_ne c d u x hside4]

set_option maxHeartbeats 2000000 in
/-- On inputs containing no square bracket the dict-iteration-order chain and
the listed-order chain compute the same replacement result: the two bracket
deletions act as the identity there, and every remaining pair of passes whose
relative order differs between the two chains commutes. -/
theorem applyReplacements_dict_eq_listed {s : List Char}
    (h1 : '[' ∉ s) (h2 : ']' ∉ s) :
    applyReplacements UNIT_KEY_REPLACEMENTS s
      = applyReplacements unitKeyReplacementsListed s := by
  simp only [applyReplacements, UNIT_KEY_REPLACEMENTS, unitKeyReplacementsListed,
    List.foldl, pyReplace]
  rw [replace1_eq_self '[' []]
  rw [replace1_eq_self ']' []]
  rw [replace1_eq_self '[' []]
  rw [replace1_eq_self ']' []]
  rw [replace1_comm ')' '\u00A0' [] ['_'] (by decide) (by decide) (by decide)]
  rw [replace1_comm '(' '\u00A0' [] ['_'] (by decide) (by decide) (by decide)]
  rw [replace2_replace1_comm '3' '0' '\u00A0' ['T', 'H', 'I', 'R', 'T', 'Y'] ['_'] (by decide) (by decide) (by decide) (by decide) (by decide) (by decide)]
  rw [replace1_comm '-' '\u00A0' ['_'] ['_'] (by decide) (by decide) (by decide)]
  rw [replace1_comm ',' '\u00A0' ['_'] ['_'] (by decide) (by decide) (by decide)]
  rw [replace1_comm '/' '\u00A0' ['_', 'P', 'E', 'R', '_'] ['_'] (by decide) (by decide) (by decide)]
  rw [replace1_comm '.' '\u00A0' ['_'] ['_'] (by decide) (by decide) (by decide)]
  rw [replace2_replace1_comm '1' '5' '\u00A0' ['F', 'I', 'F', 'T', 'E', 'E', 'N'] ['_'] (by decide) (by decide) (by decide) (by decide) (by decide) (by decide)]
  rw [replace1_comm '8' '–' ['E', 'I', 'G', 'H', 'T'] ['_'] (by decide) (by decide) (by decide)]
  rw [replace1_comm 'º' '–' ['D', 'E', 'G', '_'] ['_'] (by decide) (by decide) (by decide)]
  rw [replace1_comm '\\' '–' ['_'] ['_'] (by decide) (by decide) (by decide)]
  rw [replace1_comm ')' '\'' [] [] (by decide) (by decide) (by decide)]
  rw [replace1_comm '(' '\'' [] [] (by decide) (by decide) (by decide)]
  rw [← replace2_replace1_comm '3' '0' '-' ['T', 'H', 'I', 'R', 'T', 'Y'] ['_'] (by decide) (by decide) (by decide) (by decide) (by decide) (by decide)]
  rw [← replace2_replace1_comm '3' '0' ',' ['T', 'H', 'I', 'R', 'T', 'Y'] ['_'] (by decide) (by decide) (by decide) (by decide) (by decide) (by decide)]
  rw [← replace2_replace1_comm '3' '0' '/' ['T', 'H', 'I', 'R', 'T', 'Y'] ['_', 'P', 'E', 'R', '_'] (by decide) (by decide) (by decide) (by decide) (by decide) (by decide)]
  rw [← replace2_replace1_comm '3' '0' '.' ['T', 'H', 'I', 'R', 'T', 'Y'] ['_'] (by decide) (by decide) (by decide) (by decide) (by decide) (by decide)]
  rw [replace2_replace2_comm '1' '5' '3' '0' ['F', 'I', 'F', 'T', 'E', 'E', 'N'] ['T', 'H', 'I', 'R', 'T', 'Y'] (by decide) (by decide) (by decide) (by decide) (by decide) (by decide) (by decide) (by decide) (by decide) (by decide)]
  rw [replace1_comm '8' '°' ['E', 'I', 'G', 'H', 'T'] ['D', 'E', 'G', '_'] (by decide) (by decide) (by decide)]
  rw [replace1_comm '\\' 'º' ['_'] ['D', 'E', 'G', '_'] (by decide) (by decide) (by decide)]
  rw [replace1_comm '(' ')' [] [] (by decide) (by decide) (by decide)]
  rw [replace1_comm '-' '\'' ['_'] [] (by decide) (by decide) (by decide)]
  rw [replace1_comm ',' '\'' ['_'] [] (by decide) (by decide) (by decide)]
  rw [replace1_comm '/' '\'' ['_', 'P', 'E', 'R', '_'] [] (by decide) (by decide) (by decide)]
  rw [replace1_comm '.' '\'' ['_'] [] (by decide) (by decide) (by decide)]
  rw [replace1_comm '8' '\u00A0' ['E', 'I', 'G', 'H', 'T'] ['_'] (by decide) (by decide) (by decide)]
  rw [replace1_comm '\\' '°' ['_'] ['D', 'E', 'G', '_'] (by decide) (by decide) (by decide)]
  rw [replace1_comm '-' ')' ['_'] [] (by decide) (by decide) (by decide)]
  rw [replace1_comm ',' ')' ['_'] [] (by decide) (by decide) (by decide)]
  rw [replace1_comm '/' ')' ['_', 'P', 'E', 'R', '_'] [] (by decide) (by decide) (by decide)]
  rw [replace1_comm '.' ')' ['_'] [] (by decide) (by decide) (by decide)]
  rw [← replace2_replace1_comm '3' '0' '8' ['T', 'H', 'I', 'R', 'T', 'Y'] ['E', 'I', 'G', 'H', 'T'] (by decide) (by decide) (by decide) (by decide) (by decide) (by decide)]
  rw [replace1_comm '\\' '\u00A0' ['_'] ['_'] (by decide) (by decide) (by decide)]
  rw [replace1_comm '-' '(' ['_'] [] (by decide) (by decide) (by decide)]
  rw [replace1_comm ',' '(' ['_'] [] (by decide) (by decide) (by decide)]
  rw [replace1_comm '/' '(' ['_', 'P', 'E', 'R', '_'] [] (by decide) (by decide) (by decide)]
  rw [replace1_comm '.' '(' ['_'] [] (by decide) (by decide) (by decide)]
  rw [← replace2_replace1_comm '1' '5' '8' ['F', 'I', 'F', 'T', 'E', 'E', 'N'] ['E', 'I', 'G', 'H', 'T'] (by decide) (by decide) (by decide) (by decide) (by decide) (by decide)]
  rw [replace1_comm '-' '%' ['_'] ['P', 'E', 'R', 'C', 'E', 'N', 'T'] (by decide) (by decide) (by decide)]
  rw [replace1_comm ',' '%' ['_'] ['P', 'E', 'R', 'C', 'E', 'N', 'T'] (by decide) (by decide) (by decide)]
  rw [replace1_comm '/' '%' ['_', 'P', 'E', 'R', '_'] ['P', 'E', 'R', 'C', 'E', 'N', 'T'] (by decide) (by decide) (by decide)]
  rw [replace1_comm '.' '%' ['_'] ['P', 'E', 'R', 'C', 'E', 'N', 'T'] (by decide) (by decide) (by decide)]
  rw [replace1_comm ',' '-' ['_'] ['_'] (by decide) (by decide) (by decide)]
  rw [replace1_comm '.' '/' ['_'] ['_', 'P', 'E', 'R', '_'] (by decide) (by decide) (by decide)]
  rw [replace1_comm '.' '-' ['_'] ['_'] (by decide) (by decide) (by decide)]
  all_goals
    repeat
      first
      | refine not_mem_replace1 ?_ (by decide)
      | refine not_mem_replace2 ?_ (by decide)
      | exact h1
      | exact h2

/-! Lemmas about `pyUpperChar` and `collapseUnderscores`. -/
theorem pyUpperChar_toNat_of_lower {c : Char} (h1 : 'a' ≤ c) (h2 : c ≤ 'z') :
    (pyUpperChar c).toNat = c.toNat - 32 := by
  have hn : c.toNat ≤ 122 := h2
  unfold pyUpperChar
  rw [if_pos ⟨h1, h2⟩]
  unfold Char.ofNat
  rw [dif_pos (Or.inl (by omega))]
  rfl

theorem pyUpperChar_cases (c : Char) :
    (pyUpperChar c = c ∧ ¬(97 ≤ c.toNat ∧ c.toNat ≤ 122)) ∨
      (97 ≤ c.toNat ∧ c.toNat ≤ 122 ∧ 65 ≤ (pyUpperChar c).toNat ∧
        (pyUpperChar c).toNat ≤ 90) := by
  by_cases h : 'a' ≤ c ∧ c ≤ 'z'
  · have hl : 97 ≤ c.toNat := h.1
    have hr : c.toNat ≤ 122 := h.2
    have ht : (pyUpperChar c).toNat = c.toNat - 32 :=
      pyUpperChar_toNat_of_lower h.1 h.2
    exact Or.inr ⟨hl, hr, by omega, by omega⟩
  · refine Or.inl ⟨by simp [pyUpperChar, h], fun hc => h ⟨hc.1, hc.2⟩⟩

theorem pyUpperChar_eq_eight {c : Char} (h : pyUpperChar c = '8') : c = '8' := by
  rcases pyUpperChar_cases c with ⟨h1, _⟩ | ⟨_, _, h3, h4⟩
  · rw [← h1]; exact h
  · have : (pyUpperChar c).toNat = 56 := by rw [h]; rfl
    omega

theorem pyUpperChar_underscore : pyUpperChar '_' = '_' := by decide

theorem mem_collapse {c : Char} :
    ∀ {s : List Char}, c ∈ collapseUnderscores s → c ∈ s
  | [], h => h
  | [d], h => h
  | d :: e :: t, h => by
      by_cases hm : d = '_' ∧ e = '_'
      · rw [collapseUnderscores, if_pos hm] at h
        exact List.mem_cons_of_mem _ (mem_collapse h)
      · rw [collapseUnderscores, if_neg hm] at h
        rcases List.mem_cons.1 h with h1 | h1
        · exact h1 ▸ List.mem_cons_self _ _
        · exact List.mem_cons_of_mem _ (mem_collapse h1)

theorem collapse_ne_nil :
    ∀ {s : List Char}, s ≠ [] → collapseUnderscores s ≠ []
  | [], h => absurd rfl h
  | [d], _ => by simp [collapseUnderscores]
  | d :: e :: t, _ => by
      by_cases hm : d = '_' ∧ e = '_'
      · rw [collapseUnderscores, if_pos hm]
        exact collapse_ne_nil (by simp)
      · rw [collapseUnderscores, if_neg hm]
        simp

theorem hasDD_cons_false {a : Char} {rest : List Char}
    (h1 : rest.head? ≠ some '_' ∨ a ≠ '_')
    (h2 : hasDoubleUnderscore rest = false) :
    hasDoubleUnderscore (a :: rest) = false := by
  cases rest with
  | nil => rfl
  | cons r t =>
      rw [hasDoubleUnderscore]
      simp only [Bool.or_eq_false_iff, Bool.and_eq_false_iff]
      refine ⟨?_, h2⟩
      rcases h1 with h1 | h1
      · right
        simp only [List.head?_cons, ne_eq, Option.some.injEq] at h1
        simp [h1]
      · left
        simp [h1]

theorem hasDD_false_of_not_mem :
    ∀ {s : List Char}, '_' ∉ s → hasDoubleUnderscore s = false
  | [], _ => rfl
  | [d], _ => rfl
  | d :: e :: t, h => by
      simp only [List.mem_cons, not_or] at h
      rw [hasDoubleUnderscore]
      simp only [Bool.or_eq_false_iff, Bool.and_eq_false_iff]
      refine ⟨Or.inl (by
        simp only [beq_eq_false_iff_ne, ne_eq]
        exact fun hh => h.1 hh.symm), ?_⟩
      exact hasDD_false_of_not_mem (by
        simp only [List.mem_cons, not_or]
        exact ⟨h.2.1, h.2.2⟩)

theorem collapse_eq_self :
    ∀ {s : List Char}, hasDoubleUnderscore s = false →
      collapseUnderscores s = s
  | [], _ => rfl
  | [d], _ => rfl
  | d :: e :: t, h => by
      rw [hasDoubleUnderscore] at h
      simp only [Bool.or_eq_false_iff, Bool.and_eq_false_iff] at h
      have hm : ¬ (d = '_' ∧ e = '_') := by
        rcases h.1 with h1 | h1
        · exact fun hh => (by simp [hh.1] at h1)
        · exact fun hh => (by simp [hh.2] at h1)
      rw [collapseUnderscores, if_neg hm, collapse_eq_self h.2]

/-! Membership lemmas lifted to whole replacement tables. -/
theorem mem_pyReplace {c : Char} {pat v s : List Char}
    (h : c ∈ pyReplace pat v s) : c ∈ s ∨ c ∈ v := by
  cases pat with
  | nil => exact Or.inl h
  | cons p t1 =>
    cases t1 with
    | nil => exact mem_replace1 h
    | cons q t2 =>
      cases t2 with
      | nil => exact mem_replace2 h
      | cons r t3 => exact Or.inl h

theorem mem_pyReplace_of_ne {c : Char} {pat v s : List Char}
    (hs : c ∈ s) (hp : c ∉ pat) : c ∈ pyReplace pat v s := by
  cases pat with
  | nil => exact hs
  | cons p t1 =>
    cases t1 with
    | nil =>
        exact mem_replace1_of_ne hs (fun hh => hp (by simp [hh]))
    | cons q t2 =>
      cases t2 with
      | nil =>
          exact mem_replace2_of_ne hs (fun hh => hp (by simp [hh]))
            (fun hh => hp (by simp [hh]))
      | cons r t3 => exact hs

theorem not_mem_pyReplace {c : Char} {pat v s : List Char}
    (hs : c ∉ s) (hv : c ∉ v) : c ∉ pyReplace pat v s :=
  fun h => (mem_pyReplace h).elim hs hv

theorem applyReplacements_cons (pr : List Char × List Char)
    (rest : List (List Char × List Char)) (s : List Char) :
    applyReplacements (pr :: rest) s
      = applyReplacements rest (pyReplace pr.1 pr.2 s) := rfl

theorem mem_applyReplacements {c : Char} :
    ∀ (table : List (List Char × List Char)) {s : List Char},
      c ∈ applyReplacements table s → c ∈ s ∨ ∃ pr ∈ table, c ∈ pr.2
  | [], _, h => Or.inl h
  | pr :: rest, s, h => by
      rw [applyReplacements_cons] at h
      rcases mem_applyReplacements rest h with h1 | ⟨pr', hpr', hc⟩
      · rcases mem_pyReplace h1 with h2 | h2
        · exact Or.inl h2
        · exact Or.inr ⟨pr, List.mem_cons_self _ _, h2⟩
      · exact Or.inr ⟨pr', List.mem_cons_of_mem _ hpr', hc⟩

theorem mem_applyReplacements_of_ne {c : Char} :
    ∀ (table : List (List Char × List Char)) {s : List Char},
      c ∈ s → (∀ pr ∈ table, c ∉ pr.1) → c ∈ applyReplacements table s
  | [], _, hs, _ => hs
  | pr :: rest, s, hs, hpat => by
      rw [applyReplacements_cons]
      exact mem_applyReplacements_of_ne rest
        (mem_pyReplace_of_ne hs (hpat pr (List.mem_cons_self _ _)))
        (fun pr' h' => hpat pr' (List.mem_cons_of_mem _ h'))

/-- Every pattern character of the replacement table lies outside the ASCII
letter ranges. -/
theorem table_pattern_chars :
    ∀ pr ∈ UNIT_KEY_REPLACEMENTS, ∀ d ∈ pr.1,
      d.toNat < 65 ∨ (90 < d.toNat ∧ d.toNat < 97) ∨ 122 < d.toNat := by
  decide

/-- Every replacement character produced by the table is an uppercase ASCII
letter or an underscore. -/
theorem table_value_chars :
    ∀ pr ∈ UNIT_KEY_REPLACEMENTS, ∀ d ∈ pr.2,
      (65 ≤ d.toNat ∧ d.toNat ≤ 90) ∨ d = '_' := by
  decide

/-- An ASCII letter of the input survives the whole replacement chain. -/
theorem letter_mem_applyReplacements {c : Char} {s : List Char}
    (hc : (65 ≤ c.toNat ∧ c.toNat ≤ 90) ∨ (97 ≤ c.toNat ∧ c.toNat ≤ 122))
    (hs : c ∈ s) : c ∈ applyReplacements UNIT_KEY_REPLACEMENTS s := by
  refine mem_applyReplacements_of_ne _ hs ?_
  intro pr hpr hmem
  have hd := table_pattern_chars pr hpr c hmem
  rcases hc with hc | hc <;> omega

/-! Per-character elimination: no single-character ASCII pattern of the
table survives the replacement chain. -/
theorem elim_space (name : List Char) :
    ' ' ∉ applyReplacements UNIT_KEY_REPLACEMENTS name := by
  simp only [applyReplacements, UNIT_KEY_REPLACEMENTS, List.foldl, pyReplace]
  refine not_mem_replace1 ?_ (by decide)
  refine not_mem_replace1 ?_ (by decide)
  refine not_mem_replace1 ?_ (by decide)
  refine not_mem_replace1 ?_ (by decide)
  refine not_mem_replace1 ?_ (by decide)
  refine not_mem_replace1 ?_ (by decide)
  refine not_mem_replace1 ?_ (by decide)
  refine not_mem_replace2 ?_ (by decide)
  refine not_mem_replace1 ?_ (by decide)
  refine not_mem_replace1 ?_ (by decide)
  refine not_mem_replace1 ?_ (by decide)
  refine not_mem_replace1 ?_ (by decide)
  refine not_mem_replace2 ?_ (by decide)
  refine not_mem_replace1 ?_ (by decide)
  refine not_mem_replace1 ?_ (by decide)
  refine not_mem_replace1 ?_ (by decide)
  refine not_mem_replace1 ?_ (by decide)
  refine not_mem_replace1 ?_ (by decide)
  exact not_mem_replace1_self (by decide)

theorem elim_pct (name : List Char) :
    '%' ∉ applyReplacements UNIT_KEY_REPLACEMENTS name := by
  simp only [applyReplacements, UNIT_KEY_REPLACEMENTS, List.foldl, pyReplace]
  refine not_mem_replace1 ?_ (by decide)
  refine not_mem_replace1 ?_ (by decide)
  refine not_mem_replace1 ?_ (by decide)
  refine not_mem_replace1 ?_ (by decide)
  refine not_mem_replace1 ?_ (by decide)
  refine not_mem_replace1 ?_ (by decide)
  refine not_mem_replace1 ?_ (by decide)
  refine not_mem_replace2 ?_ (by decide)
  refine not_mem_replace1 ?_ (by decide)
  refine not_mem_replace1 ?_ (by decide)
  refine not_mem_replace1 ?_ (by decide)
  refine not_mem_replace1 ?_ (by decide)
  refine not_mem_replace2 ?_ (by decide)
  refine not_mem_replace1 ?_ (by decide)
  refine not_mem_replace1 ?_ (by decide)
  refine not_mem_replace1 ?_ (by decide)
  refine not_mem_replace1 ?_ (by decide)
  exact not_mem_replace1_self (by decide)

theorem elim_apos (name : List Char) :
    '\'' ∉ applyReplacements UNIT_KEY_REPLACEMENTS name := by
  simp only [applyReplacements, UNIT_KEY_REPLACEMENTS, List.foldl, pyReplace]
  refine not_mem_replace1 ?_ (by decide)
  refine not_mem_replace1 ?_ (by decide)
  refine not_mem_replace1 ?_ (by decide)
  refine not_mem_replace1 ?_ (by decide)
  refine not_mem_replace1 ?_ (by decide)
  refine not_mem_replace1 ?_ (by decide)
  refine not_mem_replace1 ?_ (by decide)
  refine not_mem_replace2 ?_ (by decide)
  refine not_mem_replace1 ?_ (by decide)
  refine not_mem_replace1 ?_ (by decide)
  refine not_mem_replace1 ?_ (by decide)
  refine not_mem_replace1 ?_ (by decide)
  refine not_mem_replace2 ?_ (by decide)
  refine not_mem_replace1 ?_ (by decide)
  refine not_mem_replace1 ?_ (by decide)
  refine not_mem_replace1 ?_ (by decide)
  exact not_mem_replace1_self (by decide)

theorem elim_rpar (name : List Char) :
    ')' ∉ applyReplacements UNIT_KEY_REPLACEMENTS name := by
  simp only [applyReplacements, UNIT_KEY_REPLACEMENTS, List.foldl, pyReplace]
  refine not_mem_replace1 ?_ (by decide)
  refine not_mem_replace1 ?_ (by decide)
  refine not_mem_replace1 ?_ (by decide)
  refine not_mem_replace1 ?_ (by decide)
  refine not_mem_replace1 ?_ (by decide)
  refine not_mem_replace1 ?_ (by decide)
  refine not_mem_replace1 ?_ (by decide)
  refine not_mem_replace2 ?_ (by decide)
  refine not_mem_replace1 ?_ (by decide)
  refine not_mem_replace1 ?_ (by decide)
  refine not_mem_replace1 ?_ (by decide)
  refine not_mem_replace1 ?_ (by decide)
  refine not_mem_replace2 ?_ (by decide)
  refine not_mem_replace1 ?_ (by decide)
  exact not_mem_replace1_self (by decide)

theorem elim_lpar (name : List Char) :
    '(' ∉ applyReplacements UNIT_KEY_REPLACEMENTS name := by
  simp only [applyReplacements, UNIT_KEY_REPLACEMENTS, List.foldl, pyReplace]
  refine not_mem_replace1 ?_ (by decide)
  refine not_mem_replace1 ?_ (by decide)
  refine not_mem_replace1 ?_ (by decide)
  refine not_mem_replace1 ?_ (by decide)
  refine not_mem_replace1 ?_ (by decide)
  refine not_mem_replace1 ?_ (by decide)
  refine not_mem_replace1 ?_ (by decide)
  refine not_mem_replace2 ?_ (by decide)
  refine not_mem_replace1 ?_ (by decide)
  refine not_mem_replace1 ?_ (by decide)
  refine not_mem_replace1 ?_ (by decide)
  refine not_mem_replace1 ?_ (by decide)
  refine not_mem_replace2 ?_ (by decide)
  exact not_mem_replace1_self (by decide)

theorem elim_dash (name : List Char) :
    '-' ∉ applyReplacements UNIT_KEY_REPLACEMENTS name := by
  simp only [applyReplacements, UNIT_KEY_REPLACEMENTS, List.foldl, pyReplace]
  refine not_mem_replace1 ?_ (by decide)
  refine not_mem_replace1 ?_ (by decide)
  refine not_mem_replace1 ?_ (by decide)
  refine not_mem_replace1 ?_ (by decide)
  refine not_mem_replace1 ?_ (by decide)
  refine not_mem_replace1 ?_ (by decide)
  refine not_mem_replace1 ?_ (by decide)
  refine not_mem_replace2 ?_ (by decide)
  refine not_mem_replace1 ?_ (by decide)
  refine not_mem_replace1 ?_ (by decide)
  refine not_mem_replace1 ?_ (by decide)
  exact not_mem_replace1_self (by decide)

theorem elim_comma (name : List Char) :
    ',' ∉ applyReplacements UNIT_KEY_REPLACEMENTS name := by
  simp only [applyReplacements, UNIT_KEY_REPLACEMENTS, List.foldl, pyReplace]
  refine not_mem_replace1 ?_ (by decide)
  refine not_mem_replace1 ?_ (by decide)
  refine not_mem_replace1 ?_ (by decide)
  refine not_mem_replace1 ?_ (by decide)
  refine not_mem_replace1 ?_ (by decide)
  refine not_mem_replace1 ?_ (by decide)
  refine not_mem_replace1 ?_ (by decide)
  refine not_mem_replace2 ?_ (by decide)
  refine not_mem_replace1 ?_ (by decide)
  refine not_mem_replace1 ?_ (by decide)
  exact not_mem_replace1_self (by decide)

theorem elim_slash (name : List Char) :
    '/' ∉ applyReplacements UNIT_KEY_REPLACEMENTS name := by
  simp only [applyReplacements, UNIT_KEY_REPLACEMENTS, List.foldl, pyReplace]
  refine not_mem_replace1 ?_ (by decide)
  refine not_mem_replace1 ?_ (by decide)
  refine not_mem_replace1 ?_ (by decide)
  refine not_mem_replace1 ?_ (by decide)
  refine not_mem_replace1 ?_ (by decide)
  refine not_mem_replace1 ?_ (by decide)
  refine not_mem_replace1 ?_ (by decide)
  refine not_mem_replace2 ?_ (by decide)
  refine not_mem_replace1 ?_ (by decide)
  exact not_mem_replace1_self (by decide)

theorem elim_dot (name : List Char) :
    '.' ∉ applyReplacements UNIT_KEY_REPLACEMENTS name := by
  simp only [applyReplacements, UNIT_KEY_REPLACEMENTS, List.foldl, pyReplace]
  refine not_mem_replace1 ?_ (by decide)
  refine not_mem_replace1 ?_ (by decide)
  refine not_mem_replace1 ?_ (by decide)
  refine not_mem_replace1 ?_ (by decide)
  refine not_mem_replace1 ?_ (by decide)
  refine not_mem_replace1 ?_ (by decide)
  refine not_mem_replace1 ?_ (by decide)
  refine not_mem_replace2 ?_ (by decide)
  exact not_mem_replace1_self (by decide)

theorem elim_eight (name : List Char) :
    '8' ∉ applyReplacements UNIT_KEY_REPLACEMENTS name := by
  simp only [applyReplacements, UNIT_KEY_REPLACEMENTS, List.foldl, pyReplace]
  refine not_mem_replace1 ?_ (by decide)
  refine not_mem_replace1 ?_ (by decide)
  refine not_mem_replace1 ?_ (by decide)
  refine not_mem_replace1 ?_ (by decide)
  exact not_mem_replace1_self (by decide)

theorem elim_lbrack (name : List Char) :
    '[' ∉ applyReplacements UNIT_KEY_REPLACEMENTS name := by
  simp only [applyReplacements, UNIT_KEY_REPLACEMENTS, List.foldl, pyReplace]
  refine not_mem_replace1 ?_ (by decide)
  refine not_mem_replace1 ?_ (by decide)
  refine not_mem_replace1 ?_ (by decide)
  exact not_mem_replace1_self (by decide)

theorem elim_rbrack (name : List Char) :
    ']' ∉ applyReplacements UNIT_KEY_REPLACEMENTS name := by
  simp only [applyReplacements, UNIT_KEY_REPLACEMENTS, List.foldl, pyReplace]
  refine not_mem_replace1 ?_ (by decide)
  exact not_mem_replace1_self (by decide)

theorem elim_bslash (name : List Char) :
    '\\' ∉ applyReplacements UNIT_KEY_REPLACEMENTS name := by
  simp only [applyReplacements, UNIT_KEY_REPLACEMENTS, List.foldl, pyReplace]
  exact not_mem_replace1_self (by decide)

/-!
Claim C1.  The spec asserts the replacement table is applied in the listed
order.  The running program iterates the Python 2 dict, whose order differs,
and the difference is observable: deleting '[' or ']' can merge digits into a
'15'/'30' occurrence after those passes have already run.
-/
/-- Claim C1 as stated is false: on the name `1[5` the program computes `15`
(the bracket is deleted after the '15' pass has run), while the listed-order
reference computes `FIFTEEN`. -/
theorem C1_counterexample :
    unit_key_from_name ("1[5".toList) = "15".toList ∧
    unit_key_from_name_spec ("1[5".toList) = "FIFTEEN".toList ∧
    unit_key_from_name ("1[5".toList) ≠ unit_key_from_name_spec ("1[5".toList) :=
  ⟨by decide, by decide, by decide⟩

/-- Claim C1 (amended): the sanitizer applies the replacement table as a
single sequential pass, but in the dict's iteration order, in which '[' and
']' come after '15' and '30'; for every input name containing neither '[' nor
']' the result equals the reference definition that performs the replacements
sequentially in the listed order, then uppercases, then collapses runs of
underscores. -/
theorem C1_dict_order_agrees_on_bracket_free (name : List Char)
    (h1 : '[' ∉ name) (h2 : ']' ∉ name) :
    unit_key_from_name name = unit_key_from_name_spec name := by
  unfold unit_key_from_name unit_key_from_name_spec
  rw [applyReplacements_dict_eq_listed h1 h2]

theorem C1_dict_order_agrees_on_bracket_free_witness :
    '[' ∉ "degree Celsius (°C)".toList ∧ ']' ∉ "degree Celsius (°C)".toList ∧
    unit_key_from_name ("degree Celsius (°C)".toList)
      = unit_key_from_name_spec ("degree Celsius (°C)".toList) :=
  ⟨by decide, by decide,
    C1_dict_order_agrees_on_bracket_free ("degree Celsius (°C)".toList)
      (by decide) (by decide)⟩

/-!
Claim C3.  The digit-to-word replacements are performed by `str.replace`,
which replaces every occurrence, not only a leading digit sequence.
-/
/-- Claim C3 as stated is false: on the name `8x8` the non-leading '8' is
replaced too, giving `EIGHTXEIGHT`, not the `EIGHTX8` that a leading-only
replacement would produce. -/
theorem C3_counterexample :
    unit_key_from_name ("8x8".toList) = "EIGHTXEIGHT".toList ∧
    "EIGHTXEIGHT".toList ≠ "EIGHTX8".toList :=
  ⟨by decide, by decide⟩

/-- Claim C3 (amended): the digit-to-word replacements apply at every
position of the name, the leading one included; consequently no '8' character
ever survives into the sanitized identifier. -/
theorem C3_digit_replacements_apply_everywhere (name : List Char) :
    '8' ∉ unit_key_from_name name := by
  unfold unit_key_from_name
  intro hmem
  have h1 : '8' ∈ pyUpper (applyReplacements UNIT_KEY_REPLACEMENTS name) :=
    mem_collapse hmem
  obtain ⟨d, hd, hde⟩ := List.mem_map.1 h1
  have hd8 : d = '8' := pyUpperChar_eq_eight hde
  exact elim_eight name (hd8 ▸ hd)

theorem pyUpperChar_of_upper {d : Char}
    (h : 65 ≤ d.toNat ∧ d.toNat ≤ 90) : pyUpperChar d = d := by
  rcases pyUpperChar_cases d with ⟨he, _⟩ | ⟨hl, _, _, _⟩
  · exact he
  · omega

/-- Claim C4 as stated is false: a name made of unhandled characters passes
through unchanged (`$`), the empty name yields the empty identifier, and an
unhandled leading digit survives (`9`), so the output is not always a valid
Python identifier. -/
theorem C4_counterexample :
    unit_key_from_name ("$".toList) = "$".toList ∧
    '$' ∈ unit_key_from_name ("$".toList) ∧
    ¬((65 ≤ '$'.toNat ∧ '$'.toNat ≤ 90) ∨
      (97 ≤ '$'.toNat ∧ '$'.toNat ≤ 122) ∨
      (48 ≤ '$'.toNat ∧ '$'.toNat ≤ 57) ∨ '$' = '_') ∧
    unit_key_from_name ([] : List Char) = [] ∧
    unit_key_from_name ("9".toList) = "9".toList :=
  ⟨by decide, by decide, by decide, by decide, by decide⟩

/-- Claim C4 (amended): for every name over the handled alphabet (ASCII
letters, underscore, and the thirteen replaced ASCII characters) that
contains at least one ASCII letter, the sanitizer's output is a valid Python
identifier: non-empty, made of uppercase ASCII letters and underscores only,
and its first character is not a digit. -/
theorem C4_identifier_on_handled_alphabet (name : List Char)
    (hin : ∀ c ∈ name, allowedInputChar c)
    (hletter : ∃ c ∈ name,
      (65 ≤ c.toNat ∧ c.toNat ≤ 90) ∨ (97 ≤ c.toNat ∧ c.toNat ≤ 122)) :
    unit_key_from_name name ≠ [] ∧
    (∀ c ∈ unit_key_from_name name,
      (65 ≤ c.toNat ∧ c.toNat ≤ 90) ∨ c = '_') ∧
    (∀ c, (unit_key_from_name name).head? = some c →
      ¬(48 ≤ c.toNat ∧ c.toNat ≤ 57)) := by
  have hchar : ∀ c ∈ unit_key_from_name name,
      (65 ≤ c.toNat ∧ c.toNat ≤ 90) ∨ c = '_' := by
    intro c hc
    unfold unit_key_from_name at hc
    have h1 := mem_collapse hc
    obtain ⟨d, hdM, rfl⟩ := List.mem_map.1 h1
    rcases mem_applyReplacements _ hdM with hdn | ⟨pr, hpr, hdv⟩
    · rcases hin d hdn with hU | hL | hund | hpunct
      · rw [pyUpperChar_of_upper hU]
        exact Or.inl hU
      · rcases pyUpperChar_cases d with ⟨_, hne⟩ | ⟨_, _, h3, h4⟩
        · exact absurd ⟨hL.1, hL.2⟩ hne
        · exact Or.inl ⟨h3, h4⟩
      · rw [hund, pyUpperChar_underscore]
        exact Or.inr rfl
      · simp only [List.mem_cons, List.not_mem_nil, or_false] at hpunct
        rcases hpunct with rfl | rfl | rfl | rfl | rfl | rfl | rfl | rfl |
          rfl | rfl | rfl | rfl | rfl
        · exact absurd hdM (elim_space name)
        · exact absurd hdM (elim_comma name)
        · exact absurd hdM (elim_dot name)
        · exact absurd hdM (elim_dash name)
        · exact absurd hdM (elim_slash name)
        · exact absurd hdM (elim_pct name)
        · exact absurd hdM (elim_lbrack name)
        · exact absurd hdM (elim_rbrack name)
        · exact absurd hdM (elim_lpar name)
        · exact absurd hdM (elim_rpar name)
        · exact absurd hdM (elim_apos name)
        · exact absurd hdM (elim_eight name)
        · exact absurd hdM (elim_bslash name)
    · rcases table_value_chars pr hpr d hdv with hU | hund
      · rw [pyUpperChar_of_upper hU]
        exact Or.inl hU
      · rw [hund, pyUpperChar_underscore]
        exact Or.inr rfl
  refine ⟨?_, hchar, ?_⟩
  · obtain ⟨c0, hc0mem, hc0let⟩ := hletter
    have hM : c0 ∈ applyReplacements UNIT_KEY_REPLACEMENTS name :=
      letter_mem_applyReplacements hc0let hc0mem
    have hUp : pyUpperChar c0
        ∈ pyUpper (applyReplacements UNIT_KEY_REPLACEMENTS name) :=
      List.mem_map_of_mem _ hM
    exact collapse_ne_nil (List.ne_nil_of_mem hUp)
  · intro c hhead
    have hcm : c ∈ unit_key_from_name name := by
      cases hk : unit_key_from_name name with
      | nil => rw [hk] at hhead; simp at hhead
      | cons x t =>
          rw [hk] at hhead
          simp only [List.head?_cons, Option.some.injEq] at hhead
          rw [← hhead]
          exact List.mem_cons_self _ _
    rcases hchar c hcm with hU | hund
    · omega
    · have : c.toNat = 95 := by rw [hund]; rfl
      omega

theorem not_mem_letters {p : Char} {l : List Char}
    (hl : ∀ x ∈ l, asciiLetter x)
    (hp : p.toNat < 65 ∨ (90 < p.toNat ∧ p.toNat < 97) ∨ 122 < p.toNat) :
    p ∉ l := by
  intro hmem
  rcases hl p hmem with h | h <;> rcases h with ⟨h1, h2⟩ <;> omega

theorem not_mem_single (c : Char) {p : Char} {a b : List Char}
    (ha : ∀ x ∈ a, asciiLetter x) (hb : ∀ x ∈ b, asciiLetter x)
    (hrange : p.toNat < 65 ∨ (90 < p.toNat ∧ p.toNat < 97) ∨ 122 < p.toNat)
    (hpc : p ≠ c) : p ∉ a ++ c :: b := by
  intro hmem
  rcases List.mem_append.1 hmem with h | h
  · exact not_mem_letters ha hrange h
  · rcases List.mem_cons.1 h with h | h
    · exact hpc h
    · exact not_mem_letters hb hrange h

theorem replace1_underscore_occurrence {p : Char} {a b : List Char}
    (ha : p ∉ a) (hb : p ∉ b) :
    replace1 p ['_'] (a ++ p :: b) = a ++ '_' :: b := by
  rw [replace1_append, replace1_eq_self _ _ ha, replace1, if_pos rfl,
    replace1_eq_self _ _ hb]
  rfl

theorem pyUpperChar_ne_underscore {x : Char} (hx : asciiLetter x) :
    pyUpperChar x ≠ '_' := by
  rcases pyUpperChar_cases x with ⟨he, _⟩ | ⟨_, _, h3, h4⟩
  · rw [he]
    intro hh
    have h95 : x.toNat = 95 := by rw [hh]; rfl
    rcases hx with h | h <;> omega
  · intro hh
    have h95 : (pyUpperChar x).toNat = 95 := by rw [hh]; rfl
    omega

theorem hasDD_single (A B : List Char) (hA : '_' ∉ A) (hB : '_' ∉ B) :
    hasDoubleUnderscore (A ++ '_' :: B) = false := by
  induction A with
  | nil =>
      refine hasDD_cons_false (Or.inl ?_) (hasDD_false_of_not_mem hB)
      cases B with
      | nil => simp
      | cons r t =>
          simp only [List.head?_cons, ne_eq, Option.some.injEq]
          exact fun hh => hB (by simp [hh])
  | cons x A2 ih =>
      have hx : x ≠ '_' := fun hh => hA (by simp [hh])
      rw [List.cons_append]
      refine hasDD_cons_false (Or.inr hx) ?_
      exact ih (fun hh => hA (List.mem_cons_of_mem _ hh))

/-- Claim C5 (confirmed): a name made of two letter-only parts joined by a
single space, comma or hyphen sanitizes to the uppercased parts joined by
exactly one underscore, and the result has no two consecutive underscores. -/
theorem C5_single_separator_one_underscore (a b : List Char) (c : Char)
    (ha : ∀ x ∈ a, asciiLetter x) (hb : ∀ x ∈ b, asciiLetter x)
    (hc : c = ' ' ∨ c = ',' ∨ c = '-') :
    unit_key_from_name (a ++ c :: b) = pyUpper a ++ '_' :: pyUpper b ∧
    (unit_key_from_name (a ++ c :: b)).count '_' = 1 ∧
    hasDoubleUnderscore (unit_key_from_name (a ++ c :: b)) = false := by
  have hA : '_' ∉ List.map pyUpperChar a := by
    intro hmem
    obtain ⟨x, hx, he⟩ := List.mem_map.1 hmem
    exact pyUpperChar_ne_underscore (ha x hx) he
  have hB : '_' ∉ List.map pyUpperChar b := by
    intro hmem
    obtain ⟨x, hx, he⟩ := List.mem_map.1 hmem
    exact pyUpperChar_ne_underscore (hb x hx) he
  have hkey : unit_key_from_name (a ++ c :: b)
      = List.map pyUpperChar a ++ '_' :: List.map pyUpperChar b := by
    unfold unit_key_from_name
    simp only [applyReplacements, UNIT_KEY_REPLACEMENTS, List.foldl, pyReplace]
    rcases hc with rfl | rfl | rfl
    · rw [replace1_underscore_occurrence (not_mem_letters ha (by decide)) (not_mem_letters hb (by decide))]
      rw [replace1_eq_self '%' ['P', 'E', 'R', 'C', 'E', 'N', 'T'] (not_mem_single '_' ha hb (by decide) (by decide))]
      rw [replace1_eq_self '\'' [] (not_mem_single '_' ha hb (by decide) (by decide))]
      rw [replace1_eq_self '\u00A0' ['_'] (not_mem_single '_' ha hb (by decide) (by decide))]
      rw [replace1_eq_self ')' [] (not_mem_single '_' ha hb (by decide) (by decide))]
      rw [replace1_eq_self '(' [] (not_mem_single '_' ha hb (by decide) (by decide))]
      rw [replace2_eq_self '3' '0' ['T', 'H', 'I', 'R', 'T', 'Y'] (not_mem_single '_' ha hb (by decide) (by decide))]
      rw [replace1_eq_self '-' ['_'] (not_mem_single '_' ha hb (by decide) (by decide))]
      rw [replace1_eq_self ',' ['_'] (not_mem_single '_' ha hb (by decide) (by decide))]
      rw [replace1_eq_self '/' ['_', 'P', 'E', 'R', '_'] (not_mem_single '_' ha hb (by decide) (by decide))]
      rw [replace1_eq_self '.' ['_'] (not_mem_single '_' ha hb (by decide) (by decide))]
      rw [replace2_eq_self '1' '5' ['F', 'I', 'F', 'T', 'E', 'E', 'N'] (not_mem_single '_' ha hb (by decide) (by decide))]
      rw [replace1_eq_self '°' ['D', 'E', 'G', '_'] (not_mem_single '_' ha hb (by decide) (by decide))]
      rw [replace1_eq_self '–' ['_'] (not_mem_single '_' ha hb (by decide) (by decide))]
      rw [replace1_eq_self '8' ['E', 'I', 'G', 'H', 'T'] (not_mem_single '_' ha hb (by decide) (by decide))]
      rw [replace1_eq_self '[' [] (not_mem_single '_' ha hb (by decide) (by decide))]
      rw [replace1_eq_self 'º' ['D', 'E', 'G', '_'] (not_mem_single '_' ha hb (by decide) (by decide))]
      rw [replace1_eq_self ']' [] (not_mem_single '_' ha hb (by decide) (by decide))]
      rw [replace1_eq_self '\\' ['_'] (not_mem_single '_' ha hb (by decide) (by decide))]
      unfold pyUpper
      rw [List.map_append, List.map_cons, pyUpperChar_underscore]
      exact collapse_eq_self (hasDD_single _ _ hA hB)
    · rw [replace1_eq_self ' ' ['_'] (not_mem_single ',' ha hb (by decide) (by decide))]
      rw [replace1_eq_self '%' ['P', 'E', 'R', 'C', 'E', 'N', 'T'] (not_mem_single ',' ha hb (by decide) (by decide))]
      rw [replace1_eq_self '\'' [] (not_mem_single ',' ha hb (by decide) (by decide))]
      rw [replace1_eq_self '\u00A0' ['_'] (not_mem_single ',' ha hb (by decide) (by decide))]
      rw [replace1_eq_self ')' [] (not_mem_single ',' ha hb (by decide) (by decide))]
      rw [replace1_eq_self '(' [] (not_mem_single ',' ha hb (by decide) (by decide))]
      rw [replace2_eq_self '3' '0' ['T', 'H', 'I', 'R', 'T', 'Y'] (not_mem_single ',' ha hb (by decide) (by decide))]
      rw [replace1_eq_self '-' ['_'] (not_mem_single ',' ha hb (by decide) (by decide))]
      rw [replace1_underscore_occurrence (not_mem_letters ha (by decide)) (not_mem_letters hb (by decide))]
      rw [replace1_eq_self '/' ['_', 'P', 'E', 'R', '_'] (not_mem_single '_' ha hb (by decide) (by decide))]
      rw [replace1_eq_self '.' ['_'] (not_mem_single '_' ha hb (by decide) (by decide))]
      rw [replace2_eq_self '1' '5' ['F', 'I', 'F', 'T', 'E', 'E', 'N'] (not_mem_single '_' ha hb (by decide) (by decide))]
      rw [replace1_eq_self '°' ['D', 'E', 'G', '_'] (not_mem_single '_' ha hb (by decide) (by decide))]
      rw [replace1_eq_self '–' ['_'] (not_mem_single '_' ha hb (by decide) (by decide))]
      rw [replace1_eq_self '8' ['E', 'I', 'G', 'H', 'T'] (not_mem_single '_' ha hb (by decide) (by decide))]
      rw [replace1_eq_self '[' [] (not_mem_single '_' ha hb (by decide) (by decide))]
      rw [replace1_eq_self 'º' ['D', 'E', 'G', '_'] (not_mem_single '_' ha hb (by decide) (by decide))]
      rw [replace1_eq_self ']' [] (not_mem_single '_' ha hb (by decide) (by decide))]
      rw [replace1_eq_self '\\' ['_'] (not_mem_single '_' ha hb (by decide) (by decide))]
      unfold pyUpper
      rw [List.map_append, List.map_cons, pyUpperChar_underscore]
      exact collapse_eq_self (hasDD_single _ _ hA hB)
    · rw [replace1_eq_self ' ' ['_'] (not_mem_single '-' ha hb (by decide) (by decide))]
      rw [replace1_eq_self '%' ['P', 'E', 'R', 'C', 'E', 'N', 'T'] (not_mem_single '-' ha hb (by decide) (by decide))]
      rw [replace1_eq_self '\'' [] (not_mem_single '-' ha hb (by decide) (by decide))]
      rw [replace1_eq_self '\u00A0' ['_'] (not_mem_single '-' ha hb (by decide) (by decide))]
      rw [replace1_eq_self ')' [] (not_mem_single '-' ha hb (by decide) (by decide))]
      rw [replace1_eq_self '(' [] (not_mem_single '-' ha hb (by decide) (by decide))]
      rw [replace2_eq_self '3' '0' ['T', 'H', 'I', 'R', 'T', 'Y'] (not_mem_single '-' ha hb (by decide) (by decide))]
      rw [replace1_underscore_occurrence (not_mem_letters ha (by decide)) (not_mem_letters hb (by decide))]
      rw [replace1_eq_self ',' ['_'] (not_mem_single '_' ha hb (by decide) (by decide))]
      rw [replace1_eq_self '/' ['_', 'P', 'E', 'R', '_'] (not_mem_single '_' ha hb (by decide) (by decide))]
      rw [replace1_eq_self '.' ['_'] (not_mem_single '_' ha hb (by decide) (by decide))]
      rw [replace2_eq_self '1' '5' ['F', 'I', 'F', 'T', 'E', 'E', 'N'] (not_mem_single '_' ha hb (by decide) (by decide))]
      rw [replace1_eq_self '°' ['D', 'E', 'G', '_'] (not_mem_single '_' ha hb (by decide) (by decide))]
      rw [replace1_eq_self '–' ['_'] (not_mem_single '_' ha hb (by decide) (by decide))]
      rw [replace1_eq_self '8' ['E', 'I', 'G', 'H', 'T'] (not_mem_single '_' ha hb (by decide) (by decide))]
      rw [replace1_eq_self '[' [] (not_mem_single '_' ha hb (by decide) (by decide))]
      rw [replace1_eq_self 'º' ['D', 'E', 'G', '_'] (not_mem_single '_' ha hb (by decide) (by decide))]
      rw [replace1_eq_self ']' [] (not_mem_single '_' ha hb (by decide) (by decide))]
      rw [replace1_eq_self '\\' ['_'] (not_mem_single '_' ha hb (by decide) (by decide))]
      unfold pyUpper
      rw [List.map_append, List.map_cons, pyUpperChar_underscore]
      exact collapse_eq_self (hasDD_single _ _ hA hB)

  refine ⟨hkey, ?_, ?_⟩
  · rw [hkey, List.count_append, List.count_cons_self,
      List.count_eq_zero.2 hA, List.count_eq_zero.2 hB]
  · rw [hkey]
    exact hasDD_single _ _ hA hB

theorem C5_single_separator_one_underscore_witness :
    unit_key_from_name ("ab cd".toList) = "AB_CD".toList ∧
    (unit_key_from_name ("ab cd".toList)).count '_' = 1 ∧
    hasDoubleUnderscore (unit_key_from_name ("ab cd".toList)) = false := by
  have h := C5_single_separator_one_underscore ("ab".toList) ("cd".toList) ' '
    (by decide) (by decide) (Or.inl rfl)
  exact ⟨by decide, h.2.1, h.2.2⟩

theorem C4_identifier_on_handled_alphabet_witness :
    unit_key_from_name ("m/s".toList) ≠ [] ∧
    (∀ c ∈ unit_key_from_name ("m/s".toList),
      (65 ≤ c.toNat ∧ c.toNat ≤ 90) ∨ c = '_') ∧
    (∀ c, (unit_key_from_name ("m/s".toList)).head? = some c →
      ¬(48 ≤ c.toNat ∧ c.toNat ≤ 57)) :=
  C4_identifier_on_handled_alphabet ("m/s".toList) (by decide) (by decide)

/-! Lemmas about the header scan (`colIndices`). -/
theorem alookup_dictInsert_ne {β : Type} {k k' : List Char} {v : β} :
    ∀ {d : List (List Char × β)}, k' ≠ k →
      alookup k (dictInsert d k' v) = alookup k d
  | [], h => by simp [dictInsert, alookup, h]
  | (k2, v2) :: t, h => by
      by_cases h2 : k2 = k'
      · simp [dictInsert, alookup, h2, h]
      · simp only [dictInsert, if_neg h2, alookup]
        by_cases h3 : k2 = k
        · simp [h3]
        · simp only [if_neg h3]
          exact alookup_dictInsert_ne h

theorem alookup_dictInsert_self {β : Type} {k : List Char} {v : β} :
    ∀ {d : List (List Char × β)}, alookup k (dictInsert d k v) = some v
  | [] => by simp [dictInsert, alookup]
  | (k2, v2) :: t => by
      by_cases h2 : k2 = k
      · simp [dictInsert, alookup, h2]
      · simp only [dictInsert, if_neg h2, alookup, if_neg h2]
        exact alookup_dictInsert_self

/-- If a label does not occur in the header, the column-index dict has no
binding for it. -/
theorem alookup_colIndices_none (label : List Char) (cn : List (List Char))
    {header : List Cell} (h : ∀ cell ∈ header, cell.value ≠ label) :
    alookup label (colIndices header cn) = none := by
  suffices hgen : ∀ (l : List (Nat × Cell)) (d : List (List Char × Nat)),
      (∀ ic ∈ l, ic.2.value ≠ label) → alookup label d = none →
      alookup label
        (l.foldl (fun d ic =>
          if ic.2.value ∈ cn then dictInsert d ic.2.value ic.1 else d) d)
        = none by
    refine hgen header.enum [] ?_ rfl
    intro ic hic
    exact h ic.2 (List.get?_mem (List.mem_enum_iff_get?.1 hic))
  intro l
  induction l with
  | nil => exact fun d _ hd => hd
  | cons ic t ih =>
      intro d hl hd
      simp only [List.foldl_cons]
      refine ih _ (fun x hx => hl x (List.mem_cons_of_mem _ hx)) ?_
      by_cases hm : ic.2.value ∈ cn
      · rw [if_pos hm]
        rw [alookup_dictInsert_ne (hl ic (List.mem_cons_self _ _))]
        exact hd
      · rw [if_neg hm]
        exact hd

/-- Any index stored by the header scan is a position inside the header. -/
theorem alookup_colIndices_lt {label : List Char} {cn : List (List Char)}
    {header : List Cell} {idx : Nat}
    (h : alookup label (colIndices header cn) = some idx) :
    idx < header.length := by
  suffices hgen : ∀ (l : List (Nat × Cell)) (d : List (List Char × Nat)),
      (∀ ic ∈ l, ic.1 < header.length) →
      (∀ k i, alookup k d = some i → i < header.length) →
      ∀ k i, alookup k
        (l.foldl (fun d ic =>
          if ic.2.value ∈ cn then dictInsert d ic.2.value ic.1 else d) d)
        = some i → i < header.length by
    refine hgen header.enum [] ?_ (by simp [alookup]) label idx h
    intro ic hic
    obtain ⟨hlt, _⟩ := List.get?_eq_some.1 (List.mem_enum_iff_get?.1 hic)
    exact hlt
  intro l
  induction l with
  | nil => exact fun d _ hd => hd
  | cons ic t ih =>
      intro d hl hd
      simp only [List.foldl_cons]
      refine ih _ (fun x hx => hl x (List.mem_cons_of_mem _ hx)) ?_
      intro k i hk
      by_cases hm : ic.2.value ∈ cn
      · rw [if_pos hm] at hk
        by_cases hke : ic.2.value = k
        · rw [hke] at hk
          rw [alookup_dictInsert_self] at hk
          cases hk
          exact hl ic (List.mem_cons_self _ _)
        · rw [alookup_dictInsert_ne hke] at hk
          exact hd k i hk
      · rw [if_neg hm] at hk
        exact hd k i hk

/-- A header cell bearing a wanted label yields a binding for that label. -/
theorem alookup_colIndices_isSome (label : List Char) (cn : List (List Char))
    {header : List Cell} (hcn : label ∈ cn)
    (h : ∃ cell ∈ header, cell.value = label) :
    (alookup label (colIndices header cn)).isSome := by
  suffices hgen : ∀ (l : List (Nat × Cell)) (d : List (List Char × Nat)),
      ((∃ ic ∈ l, ic.2.value = label) ∨ (alookup label d).isSome) →
      (alookup label
        (l.foldl (fun d ic =>
          if ic.2.value ∈ cn then dictInsert d ic.2.value ic.1 else d) d)).isSome by
    obtain ⟨cell, hcell, hval⟩ := h
    obtain ⟨n, hn⟩ := List.mem_iff_get.1 hcell
    have hmem : ((n : Nat), cell) ∈ header.enum :=
      List.mk_mem_enum_iff_get?.2 (by rw [List.get?_eq_get n.2, hn])
    exact hgen header.enum [] (Or.inl ⟨((n : Nat), cell), hmem, hval⟩)
  intro l
  induction l with
  | nil =>
      intro d hd
      rcases hd with ⟨ic, hic, _⟩ | hd
      · simp at hic
      · exact hd
  | cons ic t ih =>
      intro d hd
      simp only [List.foldl_cons]
      refine ih _ ?_
      rcases hd with ⟨ic2, hic2, hval⟩ | hd
      · rcases List.mem_cons.1 hic2 with h1 | h1
        · subst h1
          right
          rw [if_pos (hval ▸ hcn), hval, alookup_dictInsert_self]
          rfl
        · exact Or.inl ⟨ic2, h1, hval⟩
      · right
        by_cases hm : ic.2.value ∈ cn
        · rw [if_pos hm]
          by_cases hke : ic.2.value = label
          · rw [hke, alookup_dictInsert_self]
            rfl
          · rw [alookup_dictInsert_ne hke]
            exact hd
        · rw [if_neg hm]
          exact hd

/-!
Claim C8.  A header missing one of the three required labels makes the first
data row's column access raise `KeyError(label)` before any record is
emitted.
-/
/-- Claim C8 (confirmed): if the header lacks one of the three required
column labels and there is at least one data row (whose cells cover the
header positions), the reader stops with a `KeyError` naming a missing
column, having emitted no line. -/
theorem C8_missing_header_fatal (header r : List Cell)
    (rest : List (List Cell)) (hlen : header.length ≤ r.length)
    (hmissing : ∃ label ∈ COLUMN_NAMES, ∀ cell ∈ header, cell.value ≠ label) :
    ∃ label, (∀ cell ∈ header, cell.value ≠ label) ∧ label ∈ COLUMN_NAMES ∧
      unit_defs_from_sheet ⟨header :: r :: rest⟩ COLUMN_NAMES
        = ([], some (PyErr.keyError label)) := by
  have hg0 : COLUMN_NAMES.get? 0 = some ("Name".toList) := rfl
  have hg1 : COLUMN_NAMES.get? 1 = some ("Common\nCode".toList) := rfl
  have hg2 : COLUMN_NAMES.get? 2 = some ("Symbol".toList) := rfl
  rcases hmissing with ⟨label0, hlabel0, hmiss0⟩
  by_cases hN : ∃ cell ∈ header, cell.value = "Name".toList
  case neg =>
    have hNm : ∀ cell ∈ header, cell.value ≠ "Name".toList :=
      fun cell hc hv => hN ⟨cell, hc, hv⟩
    refine ⟨"Name".toList, hNm, by simp [COLUMN_NAMES], ?_⟩
    have hl := alookup_colIndices_none ("Name".toList) COLUMN_NAMES hNm
    simp only [unit_defs_from_sheet, processRows, extractRow, getCol,
      hg0, hg1, hg2, hl]
  case pos =>
    have hsome := alookup_colIndices_isSome ("Name".toList) COLUMN_NAMES
      (by simp [COLUMN_NAMES]) hN
    obtain ⟨i0, hi0⟩ := Option.isSome_iff_exists.1 hsome
    have hi0lt : i0 < r.length :=
      lt_of_lt_of_le (alookup_colIndices_lt hi0) hlen
    have hr0 := List.get?_eq_get hi0lt
    by_cases hC : ∃ cell ∈ header, cell.value = "Common\nCode".toList
    case neg =>
      have hCm : ∀ cell ∈ header, cell.value ≠ "Common\nCode".toList :=
        fun cell hc hv => hC ⟨cell, hc, hv⟩
      refine ⟨"Common\nCode".toList, hCm, by simp [COLUMN_NAMES], ?_⟩
      have hl := alookup_colIndices_none ("Common\nCode".toList) COLUMN_NAMES hCm
      simp only [unit_defs_from_sheet, processRows, extractRow, getCol,
        hg0, hg1, hg2, hi0, hr0, hl]
    case pos =>
      have hsome2 := alookup_colIndices_isSome ("Common\nCode".toList)
        COLUMN_NAMES (by simp [COLUMN_NAMES]) hC
      obtain ⟨i1, hi1⟩ := Option.isSome_iff_exists.1 hsome2
      have hi1lt : i1 < r.length :=
        lt_of_lt_of_le (alookup_colIndices_lt hi1) hlen
      have hr1 := List.get?_eq_get hi1lt
      have hSm : ∀ cell ∈ header, cell.value ≠ "Symbol".toList := by
        have hcases : label0 = "Name".toList ∨
            label0 = "Common\nCode".toList ∨ label0 = "Symbol".toList := by
          simpa [COLUMN_NAMES] using hlabel0
        rcases hcases with rfl | rfl | rfl
        · obtain ⟨cell, hc, hv⟩ := hN
          exact absurd hv (hmiss0 cell hc)
        · obtain ⟨cell, hc, hv⟩ := hC
          exact absurd hv (hmiss0 cell hc)
        · exact hmiss0
      refine ⟨"Symbol".toList, hSm, by simp [COLUMN_NAMES], ?_⟩
      have hl := alookup_colIndices_none ("Symbol".toList) COLUMN_NAMES hSm
      simp only [unit_defs_from_sheet, processRows, extractRow, getCol,
        hg0, hg1, hg2, hi0, hi1, hr0, hr1, hl]

theorem C8_missing_header_fatal_witness :
    ∃ label,
      (∀ cell ∈ ([⟨"Name".toList⟩, ⟨"Common\nCode".toList⟩] : List Cell),
        cell.value ≠ label) ∧ label ∈ COLUMN_NAMES ∧
      unit_defs_from_sheet
          ⟨[[⟨"Name".toList⟩, ⟨"Common\nCode".toList⟩],
            [⟨"metre".toList⟩, ⟨"MTR".toList⟩]]⟩ COLUMN_NAMES
        = ([], some (PyErr.keyError label)) :=
  C8_missing_header_fatal
    ([⟨"Name".toList⟩, ⟨"Common\nCode".toList⟩] : List Cell)
    ([⟨"metre".toList⟩, ⟨"MTR".toList⟩] : List Cell) [] (by decide)
    ⟨"Symbol".toList, by simp [COLUMN_NAMES], by decide⟩

theorem declKeys_emitLines :
    ∀ ts : List (List Char × List Char × List Char),
      declKeys (emitLines ts) = ts.map (fun t => unit_key_from_name t.1)
  | [] => rfl
  | (nm, cd, sf) :: rest => by
      simp only [emitLines, declKeys, List.map_cons]
      rw [declKeys_emitLines rest]

set_option maxHeartbeats 400000 in
theorem dedup_keys_not_seen :
    ∀ (ts : List (List Char × List Char × List Char))
      (seen : List (List Char)),
      ∀ k ∈ (dedupFirstBy seen ts).map (fun t => unit_key_from_name t.1),
        k ∉ seen
  | [], seen => by simp [dedupFirstBy]
  | t :: rest, seen => by
      by_cases hk : unit_key_from_name t.1 ∈ seen
      · rw [dedupFirstBy, if_pos hk]
        exact dedup_keys_not_seen rest seen
      · rw [dedupFirstBy, if_neg hk, List.map_cons]
        intro k hkm
        rcases List.mem_cons.1 hkm with h1 | hkm2
        · intro hks
          exact hk (h1 ▸ hks)
        · intro hks
          exact dedup_keys_not_seen rest (unit_key_from_name t.1 :: seen)
            k hkm2 (List.mem_cons_of_mem _ hks)

set_option maxHeartbeats 400000 in
theorem dedup_keys_nodup :
    ∀ (ts : List (List Char × List Char × List Char))
      (seen : List (List Char)),
      ((dedupFirstBy seen ts).map (fun t => unit_key_from_name t.1)).Nodup
  | [], seen => List.nodup_nil
  | t :: rest, seen => by
      by_cases hk : unit_key_from_name t.1 ∈ seen
      · rw [dedupFirstBy, if_pos hk]
        exact dedup_keys_nodup rest seen
      · rw [dedupFirstBy, if_neg hk, List.map_cons]
        refine List.nodup_cons.2 ⟨?_, dedup_keys_nodup rest _⟩
        intro hmem
        exact dedup_keys_not_seen rest (unit_key_from_name t.1 :: seen)
          _ hmem (List.mem_cons_self _ _)

set_option maxHeartbeats 1600000 in
theorem processRows_eq_emit_dedup (ci : List (List Char × Nat))
    (cn : List (List Char)) :
    ∀ (rows : List (List Cell)) (seen : List (List Char))
      (ts : List (List Char × List Char × List Char)),
      extractAll ci cn rows = Except.ok ts →
      processRows ci cn seen rows = (emitLines (dedupFirstBy seen ts), none)
  | [], seen, ts, h => by
      simp only [extractAll, Except.ok.injEq] at h
      subst h
      rfl
  | row :: rest, seen, ts, h => by
      cases hE : extractRow ci cn row with
      | error e => rw [extractAll, hE] at h; simp at h
      | ok t =>
          rw [extractAll, hE] at h
          cases hR : extractAll ci cn rest with
          | error e => rw [hR] at h; simp at h
          | ok ts2 =>
              rw [hR] at h
              simp only [Except.ok.injEq] at h
              subst h
              obtain ⟨nm, cd, sf⟩ := t
              simp only [processRows, hE]
              by_cases hk : unit_key_from_name nm ∈ seen
              · rw [if_pos hk, processRows_eq_emit_dedup ci cn rest seen ts2 hR]
                simp only [dedupFirstBy, if_pos hk]
              · rw [if_neg hk,
                  processRows_eq_emit_dedup ci cn rest
                    (unit_key_from_name nm :: seen) ts2 hR]
                simp only [dedupFirstBy, if_neg hk, emitLines]

/-- Claim C6 (confirmed): when every data row extracts cleanly, the generator
output is exactly the first-wins deduplication of the extracted triples (a
duplicate derived identifier is skipped silently, without error), and the
emitted identifiers are pairwise distinct. -/
theorem C6_duplicate_keys_first_wins (header : List Cell)
    (dataRows : List (List Cell))
    (ts : List (List Char × List Char × List Char))
    (h : extractAll (colIndices header COLUMN_NAMES) COLUMN_NAMES dataRows
      = Except.ok ts) :
    unit_defs_from_sheet ⟨header :: dataRows⟩ COLUMN_NAMES
      = (emitLines (dedupFirstBy [] ts), none) ∧
    (declKeys
      (unit_defs_from_sheet ⟨header :: dataRows⟩ COLUMN_NAMES).1).Nodup := by
  have h1 := processRows_eq_emit_dedup (colIndices header COLUMN_NAMES)
    COLUMN_NAMES dataRows [] ts h
  refine ⟨h1, ?_⟩
  have h2 : unit_defs_from_sheet ⟨header :: dataRows⟩ COLUMN_NAMES
      = processRows (colIndices header COLUMN_NAMES) COLUMN_NAMES
          [] dataRows := rfl
  rw [h2, h1]
  rw [declKeys_emitLines]
  exact dedup_keys_nodup ts []

theorem C6_duplicate_keys_first_wins_witness :
    unit_defs_from_sheet
        ⟨[[⟨"Name".toList⟩, ⟨"Common\nCode".toList⟩, ⟨"Symbol".toList⟩],
          [⟨"kilogram".toList⟩, ⟨"KGM".toList⟩, ⟨"kg".toList⟩],
          [⟨"metre".toList⟩, ⟨"MTR".toList⟩, ⟨"m".toList⟩],
          [⟨"metre".toList⟩, ⟨"MTR".toList⟩, ⟨"m".toList⟩]]⟩ COLUMN_NAMES
      = (emitLines (dedupFirstBy []
          [("kilogram".toList, "KGM".toList, "kg".toList),
           ("metre".toList, "MTR".toList, "m".toList),
           ("metre".toList, "MTR".toList, "m".toList)]), none) ∧
    (declKeys (unit_defs_from_sheet
        ⟨[[⟨"Name".toList⟩, ⟨"Common\nCode".toList⟩, ⟨"Symbol".toList⟩],
          [⟨"kilogram".toList⟩, ⟨"KGM".toList⟩, ⟨"kg".toList⟩],
          [⟨"metre".toList⟩, ⟨"MTR".toList⟩, ⟨"m".toList⟩],
          [⟨"metre".toList⟩, ⟨"MTR".toList⟩, ⟨"m".toList⟩]]⟩
        COLUMN_NAMES).1).Nodup :=
  C6_duplicate_keys_first_wins
    [⟨"Name".toList⟩, ⟨"Common\nCode".toList⟩, ⟨"Symbol".toList⟩]
    [[⟨"kilogram".toList⟩, ⟨"KGM".toList⟩, ⟨"kg".toList⟩],
     [⟨"metre".toList⟩, ⟨"MTR".toList⟩, ⟨"m".toList⟩],
     [⟨"metre".toList⟩, ⟨"MTR".toList⟩, ⟨"m".toList⟩]]
    [("kilogram".toList, "KGM".toList, "kg".toList),
     ("metre".toList, "MTR".toList, "m".toList),
     ("metre".toList, "MTR".toList, "m".toList)]
    (by decide)

set_option maxHeartbeats 400000 in
theorem append_key_not_in_seen (ci : List (List Char × Nat))
    (cn : List (List Char)) :
    ∀ (rows : List (List Cell)) (seen : List (List Char)) (k : List Char),
      Line.append k ∈ (processRows ci cn seen rows).1 → k ∉ seen
  | [], _, k, h => by simp [processRows] at h
  | row :: rest, seen, k, h => by
      cases hE : extractRow ci cn row with
      | error e =>
          simp only [processRows, hE] at h
          simp at h
      | ok t =>
          obtain ⟨nm, cd, sf⟩ := t
          simp only [processRows, hE] at h
          by_cases hk : unit_key_from_name nm ∈ seen
          · rw [if_pos hk] at h
            exact append_key_not_in_seen ci cn rest seen k h
          · rw [if_neg hk] at h
            rcases List.mem_cons.1 h with h1 | h1
            · exact absurd h1 (by simp)
            · rcases List.mem_cons.1 h1 with h2 | h2
              · simp only [Line.append.injEq] at h2
                rw [h2]
                exact hk
              · have h3 := append_key_not_in_seen ci cn rest
                  (unit_key_from_name nm :: seen) k h2
                exact fun hs => h3 (List.mem_cons_of_mem _ hs)

set_option maxHeartbeats 400000 in
theorem append_key_is_decl_key (ci : List (List Char × Nat))
    (cn : List (List Char)) :
    ∀ (rows : List (List Cell)) (seen : List (List Char)) (k : List Char),
      Line.append k ∈ (processRows ci cn seen rows).1 →
      k ∈ declKeys (processRows ci cn seen rows).1
  | [], _, k, h => by simp [processRows] at h
  | row :: rest, seen, k, h => by
      cases hE : extractRow ci cn row with
      | error e =>
          simp only [processRows, hE] at h
          simp at h
      | ok t =>
          obtain ⟨nm, cd, sf⟩ := t
          simp only [processRows, hE] at h ⊢
          by_cases hk : unit_key_from_name nm ∈ seen
          · rw [if_pos hk] at h ⊢
            exact append_key_is_decl_key ci cn rest seen k h
          · rw [if_neg hk] at h ⊢
            simp only [declKeys]
            rcases List.mem_cons.1 h with h1 | h1
            · exact absurd h1 (by simp)
            · rcases List.mem_cons.1 h1 with h2 | h2
              · simp only [Line.append.injEq] at h2
                exact List.mem_cons.2 (Or.inl h2)
              · exact List.mem_cons.2
                  (Or.inr (append_key_is_decl_key ci cn rest
                    (unit_key_from_name nm :: seen) k h2))

set_option maxHeartbeats 400000 in
theorem processRows_count (ci : List (List Char × Nat))
    (cn : List (List Char)) :
    ∀ (rows : List (List Cell)) (seen : List (List Char)) (i : Nat)
      (k : List Char),
      (processRows ci cn seen rows).1.get? i = some (Line.append k) →
      ((processRows ci cn seen rows).1.take i).countP (isDeclFor k) = 1
  | [], _, i, k, h => by simp [processRows] at h
  | row :: rest, seen, i, k, h => by
      cases hE : extractRow ci cn row with
      | error e =>
          simp only [processRows, hE] at h
          simp at h
      | ok t =>
          obtain ⟨nm, cd, sf⟩ := t
          simp only [processRows, hE] at h ⊢
          by_cases hk : unit_key_from_name nm ∈ seen
          · rw [if_pos hk] at h ⊢
            exact processRows_count ci cn rest seen i k h
          · rw [if_neg hk] at h ⊢
            cases i with
            | zero => simp at h
            | succ i1 =>
              cases i1 with
              | zero =>
                  simp only [List.get?] at h
                  simp only [Option.some.injEq, Line.append.injEq] at h
                  simp [List.take, List.countP, List.countP.go, isDeclFor, h]
              | succ i2 =>
                  have hmem : Line.append k
                      ∈ (processRows ci cn (unit_key_from_name nm :: seen)
                          rest).1 :=
                    List.get?_mem h
                  have hkne : ¬ (unit_key_from_name nm = k) := by
                    intro hh
                    exact append_key_not_in_seen ci cn rest _ k hmem
                      (hh ▸ List.mem_cons_self _ _)
                  have ih := processRows_count ci cn rest
                    (unit_key_from_name nm :: seen) i2 k h
                  simp only [List.take, List.countP_cons]
                  rw [ih]
                  simp [isDeclFor, hkne]

/-- Claim C7 as stated is false for the generated text as a whole: the PRE
template itself declares and registers `NONE`, so a spreadsheet row whose
name sanitizes to `NONE` (for example the name `None`) produces a second
`NONE = UnitDescriptor(...)` declaration, and the row's registration
statement then has two matching earlier declarations. -/
theorem C7_counterexample :
    (fullStatements
        ⟨[[⟨"Name".toList⟩, ⟨"Common\nCode".toList⟩, ⟨"Symbol".toList⟩],
          [⟨"None".toList⟩, ⟨"XYZ".toList⟩, ⟨"x".toList⟩]]⟩
        COLUMN_NAMES).get? 5
      = some (Line.append ("NONE".toList)) ∧
    ((fullStatements
        ⟨[[⟨"Name".toList⟩, ⟨"Common\nCode".toList⟩, ⟨"Symbol".toList⟩],
          [⟨"None".toList⟩, ⟨"XYZ".toList⟩, ⟨"x".toList⟩]]⟩
        COLUMN_NAMES).take 5).countP (isDeclFor ("NONE".toList)) = 2 :=
  ⟨by decide, by decide⟩

set_option maxHeartbeats 400000 in
/-- Claim C7 (amended): in the full generated text (the PRE template's two
sentinel pairs followed by the generated lines), every identifier appearing
in a registration statement has exactly one matching declaration statement
occurring earlier, provided no generated identifier collides with the
sentinel identifiers `NO_DIMENSION` and `NONE` (which the preamble already
declares). -/
theorem C7_registration_unique_earlier_declaration (sheet : Sheet) (i : Nat)
    (k : List Char)
    (hno : ∀ k' ∈ declKeys (unit_defs_from_sheet sheet COLUMN_NAMES).1,
      k' ≠ "NO_DIMENSION".toList ∧ k' ≠ "NONE".toList)
    (h : (fullStatements sheet COLUMN_NAMES).get? i
      = some (Line.append k)) :
    ((fullStatements sheet COLUMN_NAMES).take i).countP (isDeclFor k)
      = 1 := by
  have hfs : fullStatements sheet COLUMN_NAMES
      = Line.decl ("NO_DIMENSION".toList) ("No dimension".toList)
            ("NDL".toList) []
        :: Line.append ("NO_DIMENSION".toList)
        :: Line.decl ("NONE".toList) ("None".toList) [] []
        :: Line.append ("NONE".toList)
        :: (unit_defs_from_sheet sheet COLUMN_NAMES).1 := rfl
  rw [hfs] at h ⊢
  cases i with
  | zero => simp at h
  | succ i1 =>
    cases i1 with
    | zero =>
        simp only [List.get?, Option.some.injEq, Line.append.injEq] at h
        rw [← h]
        rfl
    | succ i2 =>
      cases i2 with
      | zero => simp at h
      | succ i3 =>
        cases i3 with
        | zero =>
            simp only [List.get?, Option.some.injEq, Line.append.injEq] at h
            rw [← h]
            rfl
        | succ j =>
          simp only [List.get?] at h
          cases hs : sheet.rows with
          | nil =>
              have hgen : (unit_defs_from_sheet sheet COLUMN_NAMES).1 = [] := by
                simp [unit_defs_from_sheet, hs]
              rw [hgen] at h
              simp at h
          | cons header dataRows =>
              have hgen : (unit_defs_from_sheet sheet COLUMN_NAMES).1
                  = (processRows (colIndices header COLUMN_NAMES)
                      COLUMN_NAMES [] dataRows).1 := by
                simp [unit_defs_from_sheet, hs]
              rw [hgen] at h hno ⊢
              have hkd : k ∈ declKeys (processRows
                  (colIndices header COLUMN_NAMES) COLUMN_NAMES
                  [] dataRows).1 :=
                append_key_is_decl_key _ _ dataRows [] k (List.get?_mem h)
              obtain ⟨hknd, hknone⟩ := hno k hkd
              have h0 : isDeclFor k (Line.decl ("NO_DIMENSION".toList)
                  ("No dimension".toList) ("NDL".toList) []) = false := by
                simp only [isDeclFor, decide_eq_false_iff_not]
                exact fun hh => hknd hh.symm
              have h1 : isDeclFor k
                  (Line.append ("NO_DIMENSION".toList)) = false := rfl
              have h2 : isDeclFor k (Line.decl ("NONE".toList)
                  ("None".toList) [] []) = false := by
                simp only [isDeclFor, decide_eq_false_iff_not]
                exact fun hh => hknone hh.symm
              have h3 : isDeclFor k (Line.append ("NONE".toList)) = false := rfl
              have ih := processRows_count (colIndices header COLUMN_NAMES)
                COLUMN_NAMES dataRows [] j k h
              simp only [List.take_succ_cons, List.countP_cons, h0, h1, h2,
                h3, if_false]
              simpa using ih

theorem C7_registration_unique_earlier_declaration_witness :
    ((fullStatements
        ⟨[[⟨"Name".toList⟩, ⟨"Common\nCode".toList⟩, ⟨"Symbol".toList⟩],
          [⟨"kilogram".toList⟩, ⟨"KGM".toList⟩, ⟨"kg".toList⟩]]⟩
        COLUMN_NAMES).take 5).countP (isDeclFor ("KILOGRAM".toList)) = 1 :=
  C7_registration_unique_earlier_declaration
    ⟨[[⟨"Name".toList⟩, ⟨"Common\nCode".toList⟩, ⟨"Symbol".toList⟩],
      [⟨"kilogram".toList⟩, ⟨"KGM".toList⟩, ⟨"kg".toList⟩]]⟩
    5 ("KILOGRAM".toList) (by decide) (by decide)

/-! Filesystem lemmas for the `main` model. -/
theorem fsLookup_write_self :
    ∀ (files : List (String × FileContent)) (p : String) (c : FileContent),
      fsLookup (fsWrite files p c) p = some c
  | [], p, c => by simp [fsWrite, fsLookup]
  | (q, c') :: t, p, c => by
      by_cases h : q = p
      · simp [fsWrite, fsLookup, h]
      · simp only [fsWrite, if_neg h, fsLookup, if_neg h]
        exact fsLookup_write_self t p c

theorem fsLookup_write_ne :
    ∀ (files : List (String × FileContent)) (p q : String) (c : FileContent),
      p ≠ q → fsLookup (fsWrite files p c) q = fsLookup files q
  | [], p, q, c, h => by simp [fsWrite, fsLookup, h]
  | (r, c') :: t, p, q, c, h => by
      by_cases h2 : r = p
      · simp only [fsWrite, if_pos h2, fsLookup, if_neg h, h2]
      · simp only [fsWrite, if_neg h2, fsLookup]
        by_cases h3 : r = q
        · simp [h3]
        · simp only [if_neg h3]
          exact fsLookup_write_ne t p q c h

theorem FS.lookup_write_self (fs : FS) (p : String) (c : FileContent) :
    (fs.write p c).lookup p = some c :=
  fsLookup_write_self fs.files p c

theorem FS.lookup_write_ne (fs : FS) {p q : String} (c : FileContent)
    (h : p ≠ q) : (fs.write p c).lookup q = fs.lookup q :=
  fsLookup_write_ne fs.files p q c h

/-- Claim C2 as stated is false: with a nonexistent input file the program
prints usage help and exits, but the exit status is 0, not a non-zero or
abnormal one, and the filesystem is untouched. -/
theorem C2_counterexample :
    pyMain xlsPath outPath tmpPath0 fs0 = (Outcome.exited true 0, fs0) := by
  decide

/-- Claim C2 (amended): if the input spreadsheet path does not exist, the
program prints the message and the usage help and exits immediately with
exit status 0 (bare `sys.exit()`), touching no file. -/
theorem C2_missing_input_prints_help_and_exits (xlsfile outfile tmpP : String)
    (fs : FS) (h : fs.pathExists xlsfile = false) :
    pyMain xlsfile outfile tmpP fs = (Outcome.exited true 0, fs) := by
  unfold pyMain
  rw [if_pos h]

theorem C2_missing_input_prints_help_and_exits_witness :
    pyMain xlsPath outPath tmpPath0 fs0 = (Outcome.exited true 0, fs0) :=
  C2_missing_input_prints_help_and_exits xlsPath outPath tmpPath0 fs0
    (by decide)

/-!
Claims C9 and C10.  The generated text is first written to the fresh
`mkstemp` path; the destination is only removed and replaced afterwards.
-/
/-- Claim C9 (confirmed): if the run fails with any uncaught error, the
destination file is untouched; and when the run finishes, the destination
holds the complete generated text (preamble, all lines, postamble). -/
theorem C9_atomic_replacement (xlsfile outfile tmpP : String) (fs : FS)
    (htmp : tmpP ≠ outfile) :
    (∀ e, (pyMain xlsfile outfile tmpP fs).1 = Outcome.raised e →
      (pyMain xlsfile outfile tmpP fs).2.lookup outfile
        = fs.lookup outfile) ∧
    ((pyMain xlsfile outfile tmpP fs).1 = Outcome.finished →
      ∃ lines, (pyMain xlsfile outfile tmpP fs).2.lookup outfile
        = some (FileContent.text (OutChunk.preamble ::
            (List.map OutChunk.line lines ++ [OutChunk.postamble])))) := by
  unfold pyMain
  by_cases hex : fs.pathExists xlsfile = false
  · rw [if_pos hex]
    exact ⟨fun e h => by simp at h, fun h => by simp at h⟩
  · rw [if_neg hex]
    cases ho : openWorkbookSheet fs xlsfile with
    | error e0 =>
        exact ⟨fun e h => rfl, fun h => by simp at h⟩
    | ok sheet =>
        cases hg : (unit_defs_from_sheet sheet COLUMN_NAMES).2 with
        | some e0 =>
            simp only [hg]
            refine ⟨fun e h => ?_, fun h => by simp at h⟩
            rw [FS.lookup_write_ne _ _ htmp, FS.lookup_write_ne _ _ htmp]
        | none =>
            simp only [hg]
            by_cases hout :
                (((fs.write tmpP (FileContent.text [])).write tmpP
                  (FileContent.text (OutChunk.preamble ::
                    (List.map OutChunk.line
                        (unit_defs_from_sheet sheet COLUMN_NAMES).1
                      ++ [OutChunk.postamble])))).pathExists outfile)
                = false
            · rw [if_pos hout]
              refine ⟨fun e h => ?_, fun h => by simp at h⟩
              rw [FS.lookup_write_ne _ _ htmp, FS.lookup_write_ne _ _ htmp]
            · rw [if_neg hout]
              refine ⟨fun e h => by simp at h, fun h => ?_⟩
              refine ⟨(unit_defs_from_sheet sheet COLUMN_NAMES).1, ?_⟩
              rw [FS.lookup_write_self]

theorem C9_atomic_replacement_witness :
    (pyMain xlsPath outPath tmpPath0 fs1).2.lookup outPath
      = fs1.lookup outPath :=
  (C9_atomic_replacement xlsPath outPath tmpPath0 fs1 (by decide)).1
    RunErr.osError (by decide)

/-- Claim C10 (confirmed): if the input opens fine and generation succeeds
but the destination path does not exist, `os.remove` raises after the
temporary file has been completely written: the run fails, the full
generated text sits at the temporary path, and nothing is created at the
destination — the tool cannot create the destination module from scratch. -/
theorem C10_missing_destination_fails_after_temp_write
    (xlsfile outfile tmpP : String) (fs : FS) (sheet : Sheet)
    (hxls : fs.pathExists xlsfile = true)
    (hopen : openWorkbookSheet fs xlsfile = Except.ok sheet)
    (hgen : (unit_defs_from_sheet sheet COLUMN_NAMES).2 = none)
    (hout : fs.pathExists outfile = false)
    (htmp : tmpP ≠ outfile) :
    (pyMain xlsfile outfile tmpP fs).1 = Outcome.raised RunErr.osError ∧
    (pyMain xlsfile outfile tmpP fs).2.lookup tmpP
      = some (FileContent.text (OutChunk.preamble ::
          (List.map OutChunk.line (unit_defs_from_sheet sheet COLUMN_NAMES).1
            ++ [OutChunk.postamble]))) ∧
    (pyMain xlsfile outfile tmpP fs).2.lookup outfile = none := by
  have hex : ¬ fs.pathExists xlsfile = false := by
    rw [hxls]
    exact fun hh => Bool.noConfusion hh
  have hlookout : fs.lookup outfile = none := by
    have := hout
    unfold FS.pathExists at this
    exact Option.not_isSome_iff_eq_none.1 (by rw [this]; exact fun hh => Bool.noConfusion hh)
  have hout2 :
      (((fs.write tmpP (FileContent.text [])).write tmpP
        (FileContent.text (OutChunk.preamble ::
          (List.map OutChunk.line (unit_defs_from_sheet sheet COLUMN_NAMES).1
            ++ [OutChunk.postamble])))).pathExists outfile) = false := by
    unfold FS.pathExists
    rw [FS.lookup_write_ne _ _ htmp, FS.lookup_write_ne _ _ htmp, hlookout]
    rfl
  unfold pyMain
  rw [if_neg hex]
  simp only [hopen, hgen]
  rw [if_pos hout2]
  refine ⟨rfl, ?_, ?_⟩
  · rw [FS.lookup_write_self]
  · rw [FS.lookup_write_ne _ _ htmp, FS.lookup_write_ne _ _ htmp, hlookout]

theorem C10_missing_destination_fails_after_temp_write_witness :
    (pyMain xlsPath outPath tmpPath0 fs1).1 = Outcome.raised RunErr.osError ∧
    (pyMain xlsPath outPath tmpPath0 fs1).2.lookup tmpPath0
      = some (FileContent.text (OutChunk.preamble ::
          (List.map OutChunk.line
              (unit_defs_from_sheet ⟨[]⟩ COLUMN_NAMES).1
            ++ [OutChunk.postamble]))) ∧
    (pyMain xlsPath outPath tmpPath0 fs1).2.lookup outPath = none :=
  C10_missing_destination_fails_after_temp_write xlsPath outPath tmpPath0 fs1
    ⟨[]⟩ (by decide) (by decide) (by decide) (by decide) (by decide)

end UnitsFromXls
